import Mathlib

/-!
# Verification of the phenopype execution engine (`Pype._iterate`) and container

Shallow embedding of the configuration-document model, the annotation
bookkeeping and the per-pass execution engine of `src/phenopype/main.py`
(`Pype._iterate`), together with the `Container` of `src/phenopype/utils.py`
and the fixed tables of `src/phenopype/settings.py`.

The source snapshot mixes two versions of the package: `main.py` invokes
`Container.run(fun=..., fun_kwargs=..., annotation_kwargs=...,
annotation_counter=...)` (main.py:1396) while `utils.py` ships an older
`Container` whose `run` has the signature `run(self, fun, annotation_id=None,
kwargs={})` and whose `__init__` cannot accept the keywords `main.py` passes.
The engine is therefore embedded with the operation-invocation boundary as an
explicit parameter (`Invoke`), matching the operation-registry contract; the
old `Container` is embedded directly from `utils.py`; parts that exist in the
repository but not in this snapshot are modelled from the spec and marked as
such in their doc comments.

Conventions:
* YAML/`ruamel` values are modelled by the inductive `Yaml`.  Lists and
  mappings are encoded as spines (`consL`/`consM`) of the same inductive so
  that all functions are structurally recursive and kernel-computable.
* Python `==` on these values is `pyEq`: order-sensitive on sequences,
  key-order-insensitive on mappings (CPython `dict.__eq__`; the rebuilt
  mapping nodes the engine compares are plain `dict`s on at least one side,
  and orders agree wherever an `OrderedDict`/`OrderedDict` comparison occurs,
  because the engine rebuilds annotation blocks in source key order).
* Raised exceptions are modelled by `Except PyExc`; exceptions raised by an
  operation are delivered through the `Invocation.result` field and handled at
  the engine boundary exactly as in `main.py:1393-1416`.
* `print` feedback is modelled as a trace of emitted strings, and the engine
  state carries ghost traces (`invoked`, `events`) that record, without
  influencing control flow, which operations were invoked and which
  annotation-control blocks were processed.
-/

set_option autoImplicit false

namespace Phenopype

/-- A Python exception value: class name and message. -/
structure PyExc where
  cls : String
  msg : String
  deriving Repr, DecidableEq

/-- YAML / `ruamel` values as loaded from a pype configuration file.
Sequences are spines built from `nilL`/`consL`, mappings are spines built
from `nilM`/`consM` (key order is kept, as for `ruamel` ordered mappings). -/
inductive Yaml where
  | s (v : String)
  | b (v : Bool)
  | i (n : Int)
  | null
  | nilL
  | consL (hd tl : Yaml)
  | nilM
  | consM (k : String) (v : Yaml) (tl : Yaml)
  deriving Repr, DecidableEq

namespace Yaml

/-- Build a sequence node from a `List`. -/
def ofL : List Yaml → Yaml
  | [] => .nilL
  | x :: xs => .consL x (ofL xs)

/-- Build a mapping node from an association list. -/
def ofM : List (String × Yaml) → Yaml
  | [] => .nilM
  | (k, v) :: xs => .consM k v (ofM xs)

/-- Is this node a mapping? -/
def isMap : Yaml → Bool
  | .nilM | .consM _ _ _ => true
  | _ => false

/-- Is this node a proper mapping spine (every tail again a mapping)?  Every
Python dict value has this shape; a `consM` spine with a non-mapping tail
corresponds to no Python value, and the model rejects such a node wherever
the source converts with `dict(...)`. -/
def isDict : Yaml → Bool
  | .nilM => true
  | .consM _ _ tl => isDict tl
  | _ => false

/-- Number of entries of a mapping node (`len` on a Python dict). -/
def mlen : Yaml → Nat
  | .consM _ _ tl => mlen tl + 1
  | _ => 0

/-- `d[k]` lookup on a mapping node (first occurrence). -/
def mlookup (k : String) : Yaml → Option Yaml
  | .consM k' v tl => if k' = k then some v else mlookup k tl
  | _ => none

/-- `k in d` on a mapping node. -/
def mhas (k : String) : Yaml → Bool
  | y => (mlookup k y).isSome

/-- `del d[k]`: remove the entry for `k` (all occurrences; Python dicts have
unique keys, so for values originating from YAML this is the single entry). -/
def mdel (k : String) : Yaml → Yaml
  | .consM k' v tl => if k' = k then mdel k tl else .consM k' v (mdel k tl)
  | y => y

/-- `d[k] = v` on a mapping node: replace in place if the key exists,
otherwise append at the end (CPython dict insertion order). -/
def mset : Yaml → String → Yaml → Yaml
  | .consM k1 v1 tl, k, v =>
      if k1 = k then .consM k1 v tl else .consM k1 v1 (mset tl k v)
  | .nilM, k, v => .consM k v .nilM
  | y, _, _ => y

/-- First entry of a mapping node (`list(dict(x).keys())[0]` /
`list(dict(x).values())[0]`); `none` models the `IndexError` on an empty
mapping. -/
def mfirst? : Yaml → Option (String × Yaml)
  | .consM k v _ => some (k, v)
  | _ => none

/-- Modify the value stored at key `k` (no-op if the key is absent; the
engine only uses this on paths it has just read, so the key is present). -/
def mmodify (k : String) (f : Yaml → Yaml) : Yaml → Yaml
  | .consM k' v tl =>
      if k' = k then .consM k' (f v) tl else .consM k' v (mmodify k f tl)
  | y => y

/-- Modify the `i`-th element of a sequence node (no-op if out of range; the
engine only uses this with indices obtained by enumerating the sequence). -/
def lmodify (i : Nat) (f : Yaml → Yaml) : Yaml → Yaml
  | .consL hd tl =>
      match i with
      | 0 => .consL (f hd) tl
      | i + 1 => .consL hd (lmodify i f tl)
  | y => y

/-- The entries of a mapping node as an association list. -/
def mToList : Yaml → List (String × Yaml)
  | .consM k v tl => (k, v) :: mToList tl
  | _ => []

/-- The elements of a sequence node as a list. -/
def lToList : Yaml → List Yaml
  | .consL hd tl => hd :: lToList tl
  | _ => []

/-- Python `==` on YAML values: scalars by value, sequences element by
element in order, mappings by CPython `dict` equality — equal sizes and each
key of the left mapping present in the right with `pyEq`-equal value (key
order is irrelevant).  Implemented by removing matched keys from the right
mapping, which agrees with `dict.__eq__` on duplicate-free mappings. -/
def pyEq : Yaml → Yaml → Bool
  | .s x, .s y => x == y
  | .b x, .b y => x == y
  | .i x, .i y => x == y
  | .null, .null => true
  | .nilL, .nilL => true
  | .consL x xs, .consL y ys => pyEq x y && pyEq xs ys
  | .nilM, .nilM => true
  | .consM k v tl, other =>
      match mlookup k other with
      | some w => pyEq v w && pyEq tl (mdel k other)
      | none => false
  | _, _ => false

/-- Well-formedness of a YAML value as produced by a YAML parser: every
mapping node has pairwise-distinct keys (Python dicts cannot hold duplicate
keys). -/
def wf : Yaml → Bool
  | .s _ | .b _ | .i _ | .null | .nilL | .nilM => true
  | .consL hd tl => wf hd && wf tl
  | .consM k v tl => !(mhas k tl) && wf v && wf tl

end Yaml

/-! ## Fixed tables from `src/phenopype/settings.py` -/

/-- `settings._annotation_functions` (settings.py:183-216): the fixed
name→type table for annotation-producing methods. -/
def annotationFunctions : List (String × String) :=
  [ ("write_comment", "comment"),
    ("detect_QRcode", "comment"),
    ("detect_contour", "contour"),
    ("edit_contour", "drawing"),
    ("set_landmark", "landmark"),
    ("detect_landmark", "landmark"),
    ("set_polyline", "line"),
    ("detect_skeleton", "line"),
    ("contour_to_mask", "mask"),
    ("create_mask", "mask"),
    ("detect_mask", "mask"),
    ("create_reference", "reference"),
    ("detect_reference", "reference"),
    ("compute_shape_features", "shape_features"),
    ("compute_texture_features", "texture_features") ]

/-- `settings._annotation_types = list(set(_annotation_functions.values()))`
(settings.py:218).  The `set` iteration order is unspecified in Python; only
membership matters (the list is used as the key set of the per-type counter),
so the values are deduplicated in first-occurrence order. -/
def annotationTypes : List String :=
  (annotationFunctions.map Prod.snd).dedup

/-- `annotation_counter = dict.fromkeys(settings._annotation_types, -1)`
(main.py:1241): the per-type counter at the start of a pass. -/
def counterInit : List (String × Int) :=
  annotationTypes.map (fun t => (t, (-1 : Int)))

/-- `settings._legacy_names` (settings.py:270-293): per-step table from
deprecated method names to current ones; `none` models the `KeyError` for a
step name outside the table. -/
def legacyNames : String → Option (List (String × String))
  | "preprocessing" =>
      some [ ("enter_data", "write_comment"),
             ("comment", "write_comment"),
             ("detect_shape", "detect_mask") ]
  | "segmentation" =>
      some [ ("detect_contours", "detect_contour"),
             ("edit_contours", "edit_contour") ]
  | "measurement" =>
      some [ ("set_landmark", "set_landmark"),
             ("set_landmarks", "set_landmark"),
             ("landmark", "set_landmark"),
             ("landmarks", "set_landmark"),
             ("shape_features", "compute_shape_features"),
             ("texture_features", "compute_texture_features") ]
  | "visualization" =>
      some [ ("draw_landmarks", "draw_landmark"),
             ("draw_contours", "draw_contour") ]
  | "export" => some []
  | _ => none

/-- The hard-coded list in `main.py:1362-1369` of method names whose
defaulted `edit` policy is `"overwrite"`. -/
def editOverwriteNames : List String :=
  [ "detect_contour", "detect_shape", "compute_shape_features",
    "compute_texture_features", "skeletonize" ]

/-- Python `str.upper()` on the ASCII step names (main.py:1267). -/
def pyUpper (s : String) : String :=
  String.mk (s.toList.map Char.toUpper)

/-- `string.ascii_lowercase`. -/
def asciiLowercase : List Char :=
  [ 'a', 'b', 'c', 'd', 'e', 'f', 'g', 'h', 'i', 'j', 'k', 'l', 'm',
    'n', 'o', 'p', 'q', 'r', 's', 't', 'u', 'v', 'w', 'x', 'y', 'z' ]

/-- Python string indexing `s[i]` with an `int` index: negative indices wrap
once from the end, out-of-range indices raise `IndexError`. -/
def pyStrIndex (s : List Char) (i : Int) : Except PyExc Char :=
  let n : Int := s.length
  let j := if i < 0 then i + n else i
  if h : 0 ≤ j ∧ j < n then
    .ok (s.get ⟨j.toNat, by omega⟩)
  else
    .error ⟨"IndexError", "string index out of range"⟩

/-! ## Association-list helpers (Python dicts with string keys) -/

/-- Lookup in an association list (first occurrence). -/
def alGet {α : Type} (k : String) : List (String × α) → Option α
  | [] => none
  | (k1, v) :: tl => if k1 = k then some v else alGet k tl

/-- `d[k] = v` on an association list: replace in place if present, else
append (CPython dict insertion order). -/
def alSet {α : Type} (k : String) (v : α) : List (String × α) → List (String × α)
  | [] => [(k, v)]
  | (k1, v1) :: tl => if k1 = k then (k1, v) :: tl else (k1, v1) :: alSet k v tl

/-! ## The `Container` of `src/phenopype/utils.py` -/

/-- The annotation store: a mapping from annotation-group name to a mapping
from id to the (opaque) annotation payload, as addressed by `Container.run`
(`self.annotations["masks"][annotation_id]`, utils.py:125-180). -/
abbrev Store := List (String × List (String × Yaml))

/-- Modelled from the spec: the initial annotation store.  `utils.py:66`
initializes `self.annotations` from `settings._annotation_function_dicts`,
which this snapshot's `settings.py` does not define; per the spec the store
is "created empty when a workspace/session starts", with one (empty) group
per group name that `Container.run` addresses. -/
def initStore : Store :=
  [("comments", []), ("contours", []), ("masks", []), ("references", [])]

/-- Store lookup of a whole group (`self.annotations[group]`). -/
def storeGroup (group : String) (st : Store) : List (String × Yaml) :=
  (alGet group st).getD []

/-- Store update of one id within a group
(`self.annotations[group][id] = payload`). -/
def storeSet (group idv : String) (payload : Yaml) (st : Store) : Store :=
  alSet group (alSet idv payload (storeGroup group st)) st

/-- The key a Python `None` annotation id selects.  `Container.run` defaults
`annotation_id` to `None` and Python dicts accept `None` as a key; ids the
engine assigns are single lowercase letters, so this sentinel never collides
with a real id. -/
def idKey : Option String → String
  | some x => x
  | none => "None"

/-- The workspace of `utils.py` (`Container.__init__`, utils.py:52-66):
the immutable original (`image_copy`), the working image, the binary, gray
and canvas buffers, the annotation store, and the attributes `Container.reset`
touches.  The reference-template attributes are optional because `load` sets
them only when project-level reference data exists (utils.py:249-283). -/
structure Container (Img : Type) where
  image : Img
  image_copy : Img
  image_bin : Option Img
  image_gray : Option Img
  canvas : Option Img
  annotations : Store
  df_contours : Option Yaml
  reference_manual_mode : Bool
  reference_template_px_mm_ratio : Option Yaml
  reference_template_image : Option Img

variable {Img : Type}

/-- `Container.__init__` (utils.py:52-66) for a loaded image: the working
image and its immutable copy start equal, the buffers empty, the annotation
store fresh. -/
def Container.init (img : Img) : Container Img :=
  { image := img
    image_copy := img
    image_bin := none
    image_gray := none
    canvas := none
    annotations := initStore
    df_contours := none
    reference_manual_mode := false
    reference_template_px_mm_ratio := none
    reference_template_image := none }

/-- `Container.reset` (utils.py:311-330): restore the working image from the
immutable copy, clear the binary, gray and canvas buffers, reset the manual
reference flag and drop the cached contour dataframe.  The annotation store
is not touched. -/
def Container.reset (c : Container Img) : Container Img :=
  { c with
    image := c.image_copy
    image_bin := none
    image_gray := none
    canvas := none
    reference_manual_mode := false
    df_contours := none }

/-- The opaque image operations of `phenopype.core.*` that `Container.run`
dispatches to.  The modules are outside this snapshot (and outside the spec:
operations are opaque to the engine), so each is an arbitrary total function
of the inputs `Container.run` passes it. -/
structure CoreOps (Img : Type) where
  blur : Img → Yaml → Img
  createMask : Img → Yaml → Yaml
  detectMask : Img → Yaml → Yaml
  enterData : Img → Yaml → Yaml
  detectReference : Img → Img → Yaml → Yaml → Sum Yaml (Yaml × Yaml)
  selectChannel : Img → Yaml → Img
  threshold : Img → Yaml → Img
  watershed : Img → Option Img → Yaml → Img
  morphology : Img → Yaml → Img
  detectContours : Img → Yaml → Yaml

/-- `Container.run` (utils.py:123-181), the dispatcher of this snapshot's
`Container`: merge a previous "masks" annotation into the keyword arguments
as context, dispatch on the operation name (each `if` in sequence; an unknown
name matches no branch and the call silently does nothing), store produced
annotations under `annotation_id`, and for `threshold` copy the resulting
working image into the binary buffer. -/
def containerRun (ops : CoreOps Img) (c : Container Img) (fn : String)
    (annId : Option String) (kwargs0 : Yaml) : Container Img :=
  let masks := storeGroup "masks" c.annotations
  let kwargs :=
    match alGet (idKey annId) masks with
    | some prev => kwargs0.mset "previous_annotation" prev
    | none => kwargs0
  if fn = "blur" then
    { c with image := ops.blur c.image kwargs }
  else if fn = "create_mask" then
    { c with annotations :=
        storeSet "masks" (idKey annId) (ops.createMask c.image kwargs) c.annotations }
  else if fn = "detect_mask" then
    { c with annotations :=
        storeSet "masks" (idKey annId) (ops.detectMask c.image kwargs) c.annotations }
  else if fn = "enter_data" then
    { c with annotations :=
        storeSet "comments" (idKey annId) (ops.enterData c.image kwargs) c.annotations }
  else if fn = "detect_reference" then
    match c.reference_template_px_mm_ratio, c.reference_template_image with
    | some ratioVal, some tmpl =>
        match ops.detectReference c.image tmpl ratioVal kwargs with
        | .inl single =>
            -- not a tuple: stored in both groups (utils.py:155,160)
            let st2 := storeSet "masks" (idKey annId) single c.annotations
            { c with annotations := storeSet "references" (idKey annId) single st2 }
        | .inr (ref, mask) =>
            -- a tuple: masks gets annotation[1], references annotation[0]
            let st2 := storeSet "masks" (idKey annId) mask c.annotations
            { c with annotations := storeSet "references" (idKey annId) ref st2 }
    | _, _ => c  -- "- missing project level reference information, cannot detect"
  else if fn = "select_channel" then
    { c with image := ops.selectChannel c.image kwargs }
  else if fn = "threshold" then
    let kwargs2 :=
      if masks.length > 0 then kwargs.mset "masks" (Yaml.ofM masks) else kwargs
    let newImage := ops.threshold c.image kwargs2
    { c with image := newImage, image_bin := some newImage }
  else if fn = "watershed" then
    { c with image := ops.watershed c.image_copy c.image_bin kwargs }
  else if fn = "morphology" then
    { c with image := ops.morphology c.image kwargs }
  else if fn = "detect_contours" then
    { c with annotations :=
        storeSet "contours" (idKey annId) (ops.detectContours c.image kwargs) c.annotations }
  else
    c

/-! ## The execution engine: `Pype._iterate` (main.py:1217-1452)

The engine walks `config["processing_steps"]`, resolves method names against
the per-step operation registry (`hasattr(eval(step_name), method_name)`),
optionally fixes legacy names, maintains the per-type annotation counter and
writes defaulted annotation-control blocks back into a working copy of the
configuration, invokes each method through `Container.run` with error
isolation, honours the process-wide restart flag, and finally persists the
updated configuration when it compares unequal (Python `==`) to the input.

Prints are modelled as a trace of emitted strings; `invoked` and `events`
are ghost traces recording the operation invocations and the processed
annotation-control blocks, with no influence on control flow.  CPython
would reuse the previous loop iteration's local bindings on a method entry
that is neither a mapping nor a string (main.py:1292-1301 binds nothing
then); such an entry is not a Method of the document model and is modelled
as an error. -/

/-- Outcome of one operation invocation at the engine boundary: the
resulting container, or the exception the operation raised, together with
the operation's effect on the process-wide `_config.pype_restart` flag
(`none` = flag left unchanged, `some x` = flag set to `x`). -/
structure Invocation (Img : Type) where
  result : Except PyExc (Container Img)
  restartAfter : Option Bool := none

/-- Modelled from the spec: the operation-invocation boundary.  main.py:1396
calls `self.container.run(fun=..., fun_kwargs=..., annotation_kwargs=...,
annotation_counter=...)`, but the `Container.run` with that signature is not
part of this snapshot (utils.py ships the older `run(self, fun,
annotation_id=None, kwargs={})`), so the engine is parameterized over the
invocation function, as in the operation-registry contract
`invoke(step, name, args, workspace, store) -> void | raises`. -/
def Invoke (Img : Type) :=
  String → Yaml → Yaml → List (String × Int) → Container Img → Invocation Img

/-- The flags `_iterate` reads: its own arguments `execute` and `feedback`
(main.py:1218), and the Pype-level flags `fix_names`, `debug` and `dry_run`
(main.py:980-993), together with the registry and invocation boundaries. -/
structure Env (Img : Type) where
  registry : String → Option (String → Bool)
  invoke : Invoke Img
  fixNames : Bool
  debug : Bool
  dryRun : Bool
  execute : Bool
  feedback : Bool

/-- Ghost record of one processed annotation-control block (main.py:
1333-1379): the table type of the method, whether `id`/`edit` were explicit
in the document, and their final values in the written-back block. -/
structure AnnEvent where
  typ : String
  explicitId : Bool
  idVal : Yaml
  explicitEdit : Bool
  editVal : Yaml
  deriving Repr, DecidableEq

/-- The engine state threaded through one pass: the container, the per-type
annotation counter (`annotation_counter`, main.py:1241), the working copy of
the configuration (`self.config_updated`, main.py:1245), the parsed-names
record (`self.config_parsed_flattened`, main.py:1246), the session log
(`self.log`), the print trace, the ghost invocation/annotation traces, and
the process-wide `_config.pype_restart` flag. -/
structure PassState (Img : Type) where
  container : Container Img
  counter : List (String × Int)
  configUpdated : Yaml
  flattened : List (String × List String)
  log : List PyExc
  printed : List String
  invoked : List (String × Yaml)
  events : List AnnEvent
  pypeRestart : Bool

/-- The observable outcome of one pass.  The Python `_iterate` returns
`None` on both its exits; `earlyRestart` records which exit was taken
(the `return` at main.py:1421 versus falling through), and `persisted`
records whether `_save_yaml` was called (main.py:1427-1429). -/
structure IterResult (Img : Type) where
  state : PassState Img
  earlyRestart : Bool
  persisted : Bool

/-- Python iteration `for x in y` over a YAML value: a sequence yields its
elements, a mapping its keys, a string its characters (as one-character
strings); `None` and scalars are not iterable. -/
def pyIter : Yaml → Except PyExc (List Yaml)
  | .nilL => .ok []
  | .consL hd tl => .ok (hd :: (Yaml.lToList tl))
  | .nilM => .ok []
  | .consM k _ tl => .ok (.s k :: (Yaml.mToList tl).map (fun kv => .s kv.1))
  | .s str => .ok (str.toList.map (fun ch => .s (String.singleton ch)))
  | _ => .error ⟨"TypeError", "object is not iterable"⟩

/-- Extraction of a method entry (main.py:1292-1301): a single-key mapping
yields its first key as the name and its first value (or `{}` for `None`) as
the argument dict; a bare string is a name with no arguments.  An empty
mapping raises `IndexError`; a non-mapping argument value cannot be passed
to `dict(...)`; any other entry shape is not a Method (see the note above). -/
def parseMethod : Yaml → Except PyExc (String × Yaml)
  | .consM k v _ =>
      match v with
      | .null => .ok (k, .nilM)
      | _ =>
          if v.isDict then .ok (k, v)
          else .error ⟨"TypeError", "cannot convert value to dict"⟩
  | .nilM => .error ⟨"IndexError", "list index out of range"⟩
  | .s name => .ok (name, .nilM)
  | _ => .error ⟨"UnboundLocalError", "method entry is not a mapping or string"⟩

/-- `self.config_updated["processing_steps"][step_idx][step_name][method_idx]
= entry` (main.py:1316-1318 and 1377-1379). -/
def setMethodEntry (stepIdx : Nat) (stepName : String) (methodIdx : Nat)
    (entry : Yaml) (cfg : Yaml) : Yaml :=
  cfg.mmodify "processing_steps"
    (Yaml.lmodify stepIdx
      (Yaml.mmodify stepName (Yaml.lmodify methodIdx (fun _ => entry))))

/-- Result of the annotation-parameter section for an annotation-producing
method: the incremented counter, the arguments with the ANNOTATION block
removed, the (possibly defaulted) annotation-control block, and the ghost
event. -/
structure AnnOut where
  counter : List (String × Int)
  methodArgs : Yaml
  annBlock : Yaml
  event : AnnEvent

/-- Splitting an explicit ANNOTATION block out of the method arguments
(main.py:1337-1342): `annotation_args = dict(method_args["ANNOTATION"])` and
`del method_args["ANNOTATION"]` when the key is present, else an empty
block; a non-dict value cannot be converted. -/
def splitAnnBlock (methodArgs : Yaml) : Except PyExc (Yaml × Yaml) :=
  match methodArgs.mlookup "ANNOTATION" with
  | none => .ok (Yaml.nilM, methodArgs)
  | some av =>
      if av.isDict then .ok (av, methodArgs.mdel "ANNOTATION")
      else .error ⟨"TypeError", "cannot convert value to dict"⟩

/-- The defaulting of the annotation-control block (main.py:1344-1372):
`type` defaults to the table type, `id` to the lowercase letter at the
incremented per-type counter, and `edit` to `"overwrite"` for the names of
`editOverwriteNames` and `False` otherwise.  Each default is appended only
when the key is absent, in this order (Python dict update order). -/
def annDefaults (methodName typ : String) (cnt : Int) (annBlock0 : Yaml) :
    Except PyExc Yaml := do
  let annBlock1 :=
    if annBlock0.mhas "type" then annBlock0 else annBlock0.mset "type" (.s typ)
  let annBlock2 ←
    (if annBlock0.mhas "id" then .ok annBlock1
     else do
       let ch ← pyStrIndex asciiLowercase (cnt + 1)
       .ok (annBlock1.mset "id" (.s (String.singleton ch)))
     : Except PyExc Yaml)
  pure
    (if annBlock0.mhas "edit" then annBlock2
     else annBlock2.mset "edit"
       (if editOverwriteNames.contains methodName then .s "overwrite"
        else .b false))

/-- The annotation-parameter section (main.py:1332-1381): when the method
name is in `settings._annotation_functions`, increment the per-type counter,
split an explicit ANNOTATION block out of the arguments and default its
missing fields.  `_yaml_flow_style` (main.py:1374) only changes
serialization style and is the identity here.  Returns `none` for
non-annotation-producing methods. -/
def annSection (methodName : String) (methodArgs : Yaml)
    (counter : List (String × Int)) : Except PyExc (Option AnnOut) :=
  match alGet methodName annotationFunctions with
  | none => .ok none
  | some typ =>
    match alGet typ counter with
    | none => .error ⟨"KeyError", typ⟩
    | some cnt =>
      match splitAnnBlock methodArgs with
      | .error e => .error e
      | .ok (annBlock0, args2) =>
        match annDefaults methodName typ cnt annBlock0 with
        | .error e => .error e
        | .ok annBlock3 =>
          .ok (some
            { counter := alSet typ (cnt + 1) counter
              methodArgs := args2
              annBlock := annBlock3
              event :=
                { typ := typ
                  explicitId := annBlock0.mhas "id"
                  idVal := (annBlock3.mlookup "id").getD .null
                  explicitEdit := annBlock0.mhas "edit"
                  editVal := (annBlock3.mlookup "edit").getD .null } })

/-- Name resolution for one method (main.py:1307-1326): a registry hit keeps
the name (and records it in `config_parsed_flattened`); otherwise, with alias
fixing on, a legacy-table hit substitutes the current name into the updated
config (the returned Bool marks that the written dict is the live
`method_args` object) while a miss does nothing; with alias fixing off a miss
prints the diagnostic.  In none of these cases is the method skipped. -/
def resolveName (env : Env Img) (stepIdx : Nat) (stepName : String)
    (methodIdx : Nat) (name0 : String) (args0 : Yaml) (st1 : PassState Img) :
    Except PyExc (PassState Img × String × Bool) :=
  match env.registry stepName with
  | none => .error ⟨"NameError", stepName⟩
  | some reg =>
    if reg name0 then
      let fl := alSet stepName ((alGet stepName st1.flattened).getD [] ++ [name0]) st1.flattened
      .ok ({ st1 with flattened := fl }, name0, false)
    else if env.fixNames then
      match legacyNames stepName with
      | none => .error ⟨"KeyError", stepName⟩
      | some tbl =>
        match alGet name0 tbl with
        | some name2 =>
          let cfg2 := setMethodEntry stepIdx stepName methodIdx
            (.consM name2 args0 .nilM) st1.configUpdated
          .ok ({ st1 with
                 configUpdated := cfg2
                 printed := st1.printed ++ ["Fixed method name"] }, name2, true)
        | none => .ok (st1, name0, false)
    else
      let diag := "phenopype." ++ stepName ++ " has no function called " ++ name0
        ++ " - will attempt to look for similarly named functions - fix the config file!"
      .ok ({ st1 with printed := st1.printed ++ [diag] }, name0, false)

/-- The `try`/`except` around the operation invocation (main.py:1393-1416):
a successful invocation replaces the container; an exception is re-raised in
debug mode, and otherwise the exception value is appended to the session log
(`self.log.append(ex)`) while the location line
`step.method: ErrorKind - message` goes to the progress output. -/
def handleInvoke (debug : Bool) (stepName name1 : String)
    (res : Except PyExc (Container Img)) (st5 : PassState Img) :
    Except PyExc (PassState Img) :=
  match res with
  | .ok c2 => .ok { st5 with container := c2 }
  | .error ex =>
    if debug then .error ex
    else
      let loc := stepName ++ "." ++ name1 ++ ": " ++ ex.cls
      .ok { st5 with
            log := st5.log ++ [ex]
            printed := st5.printed ++ [loc ++ " - " ++ ex.msg] }

/-- Writing the annotation-control block back into the updated configuration
(main.py:1374-1381): for an annotation-producing method the entry becomes
`{name: {ANNOTATION: block, **remaining args}}` and the counter and event
trace advance; otherwise nothing changes.  The returned tuple is the state,
the arguments passed on to the invocation, the annotation-control block, and
whether the updated-config entry is still the live `method_args` object. -/
def applyAnnWrite (stepIdx : Nat) (stepName : String) (methodIdx : Nat)
    (name1 : String) (st2 : PassState Img) (annRes : Option AnnOut)
    (args0 : Yaml) (aliased : Bool) : PassState Img × Yaml × Yaml × Bool :=
  match annRes with
  | some out =>
    let cfg3 := setMethodEntry stepIdx stepName methodIdx
      (.consM name1 (.consM "ANNOTATION" out.annBlock out.methodArgs) .nilM)
      st2.configUpdated
    ({ st2 with
       counter := out.counter
       configUpdated := cfg3
       events := st2.events ++ [out.event] },
     out.methodArgs, out.annBlock, false)
  | none => (st2, args0, Yaml.nilM, aliased)

/-- Re-writing the updated-config entry of an alias-fixed method when the
`passive` key is injected (main.py:1390-1391): the dict written at the alias
fix is the same object as `method_args`, so the mutation also lands in the
updated config. -/
def passiveWrite (feedback : Bool) (stepIdx : Nat) (stepName : String)
    (methodIdx : Nat) (name1 : String) (args4 : Yaml) (aliased2 : Bool)
    (st3 : PassState Img) : PassState Img :=
  if aliased2 && !feedback then
    let cfg4 := setMethodEntry stepIdx stepName methodIdx
      (.consM name1 args4 .nilM) st3.configUpdated
    { st3 with configUpdated := cfg4 }
  else st3

/-- The execute section for one method (main.py:1386-1421): add `passive`
when feedback is off (re-writing an alias-fixed entry that shares the live
`method_args` dict, `passiveWrite`), invoke the operation through the engine
boundary with error isolation, and read the restart flag.  The returned Bool
is true when the restart flag ended the pass (the `return` at
main.py:1421). -/
def execMethod (env : Env Img) (stepIdx : Nat) (stepName : String)
    (methodIdx : Nat) (name1 : String) (args3 annBlock : Yaml)
    (aliased2 : Bool) (st3 : PassState Img) :
    Except PyExc (PassState Img × Bool) :=
  if env.execute then
    let args4 := if env.feedback then args3 else args3.mset "passive" (.b true)
    let st4 := passiveWrite env.feedback stepIdx stepName methodIdx name1 args4 aliased2 st3
    let inv := env.invoke name1 args4 annBlock st4.counter st4.container
    let st5 := { st4 with invoked := st4.invoked ++ [(name1, args4)] }
    match handleInvoke env.debug stepName name1 inv.result st5 with
    | .error e => .error e
    | .ok st6 =>
      let restart := inv.restartAfter.getD st6.pypeRestart
      let st7 := { st6 with pypeRestart := restart }
      if restart then
        .ok ({ st7 with printed := st7.printed ++ ["BREAK"] }, true)
      else
        .ok (st7, false)
  else .ok (st3, false)

/-- Processing of one method (main.py:1285-1421): extract name and
arguments; resolve the name against the registry with optional legacy-alias
fixing (main.py:1307-1326 — note that the missing-name diagnostic is printed
only when alias fixing is off, and that an unresolved method is not skipped:
control falls through to the annotation section and the invocation); run the
annotation-parameter section and write its block back; then the execute
section.

When the alias fix has written `{new_name: method_args}` into the updated
config and feedback is off, CPython's `method_args["passive"] = True`
(main.py:1391) also mutates that freshly written dict (they are the same
object); the model re-writes the entry at that point (`execMethod`).  The
annotation section always overwrites such an entry with freshly built dicts,
which ends the sharing. -/
def processMethod (env : Env Img) (stepIdx : Nat) (stepName : String)
    (methodIdx : Nat) (method : Yaml) (st0 : PassState Img) :
    Except PyExc (PassState Img × Bool) :=
  match parseMethod method with
  | .error e => .error e
  | .ok (name0, args0) =>
    let st1 :=
      if env.execute then { st0 with printed := st0.printed ++ [name0] } else st0
    match resolveName env stepIdx stepName methodIdx name0 args0 st1 with
    | .error e => .error e
    | .ok (st2, name1, aliased) =>
      match annSection name1 args0 st2.counter with
      | .error e => .error e
      | .ok annRes =>
        match applyAnnWrite stepIdx stepName methodIdx name1 st2 annRes args0 aliased with
        | (st3, args3, annBlock, aliased2) =>
          execMethod env stepIdx stepName methodIdx name1 args3 annBlock aliased2 st3

/-- The inner method loop (main.py:1285): run the methods of one step in
order; a true flag from `processMethod` ends the whole pass. -/
def runMethods (env : Env Img) (stepIdx : Nat) (stepName : String) :
    Nat → List Yaml → PassState Img → Except PyExc (PassState Img × Bool)
  | _, [], st => .ok (st, false)
  | methodIdx, m :: rest, st =>
    match processMethod env stepIdx stepName methodIdx m st with
    | .error e => .error e
    | .ok (st1, brk) =>
      if brk then .ok (st1, true)
      else runMethods env stepIdx stepName (methodIdx + 1) rest st1

/-- The method names of a visualization step's method list
(main.py:1273-1276): a string entry is its own name, a mapping entry
contributes its first key. -/
def visNames : List Yaml → Except PyExc (List String)
  | [] => .ok []
  | it :: rest =>
    match
      (match it with
       | .s n => .ok n
       | other =>
         match other.mfirst? with
         | some kv => .ok kv.1
         | none =>
           if other.isMap then .error ⟨"IndexError", "list index out of range"⟩
           else .error ⟨"TypeError", "cannot convert value to dict"⟩
       : Except PyExc String) with
    | .error e => .error e
    | .ok n =>
      match visNames rest with
      | .error e => .error e
      | .ok ns => .ok (n :: ns)

/-- The canvas autoselection of the visualization step (main.py:1270-1282):
in execute mode, when no canvas is set and no `select_canvas` method is
declared, `select_canvas` is invoked with default arguments.  This call is
not wrapped in the per-method error isolation, so its exception
propagates. -/
def visAutoselect (env : Env Img) (stepName : String) (methodList : Yaml)
    (st2 : PassState Img) : Except PyExc (PassState Img) :=
  if stepName == "visualization" && env.execute then
    match pyIter methodList with
    | .error e => .error e
    | .ok items =>
      match visNames items with
      | .error e => .error e
      | .ok visList =>
        if st2.container.canvas.isNone && !(visList.contains "select_canvas") then
          let inv := env.invoke "select_canvas" .nilM .nilM st2.counter st2.container
          match inv.result with
          | .ok c2 =>
            .ok { st2 with
                  container := c2
                  printed := st2.printed ++ ["select_canvas (autoselect)"]
                  invoked := st2.invoked ++ [("select_canvas", Yaml.nilM)]
                  pypeRestart := inv.restartAfter.getD st2.pypeRestart }
          | .error ex => .error ex
        else .ok st2
  else .ok st2

/-- One step (main.py:1248-1285): a bare string step is skipped; the step
name and method list are the first key and value of the step mapping (an
empty mapping raises `IndexError`); `config_parsed_flattened` gets a fresh
list for the step name; a `None` method list skips the step; then the step
header print (`stepHeader`, main.py:1266-1268), the canvas autoselection,
and the declared methods in order. -/
def stepHeader (execute : Bool) (stepName : String) (st1 : PassState Img) :
    PassState Img :=
  if execute then { st1 with printed := st1.printed ++ [pyUpper stepName] }
  else st1

/-- One step, continued from the doc comment above. -/
def runStep (env : Env Img) (stepIdx : Nat) (step : Yaml)
    (st0 : PassState Img) : Except PyExc (PassState Img × Bool) :=
  match step with
  | .s _ => .ok (st0, false)
  | .nilM => .error ⟨"IndexError", "list index out of range"⟩
  | .consM stepName methodList _ =>
    let st1 := { st0 with flattened := alSet stepName [] st0.flattened }
    match methodList with
    | .null => .ok (st1, false)
    | _ =>
      match visAutoselect env stepName methodList (stepHeader env.execute stepName st1) with
      | .error e => .error e
      | .ok st3 =>
        match pyIter methodList with
        | .error e => .error e
        | .ok items => runMethods env stepIdx stepName 0 items st3
  | _ => .error ⟨"TypeError", "cannot convert value to dict"⟩

/-- The outer step loop (main.py:1248). -/
def runSteps (env : Env Img) :
    Nat → List Yaml → PassState Img → Except PyExc (PassState Img × Bool)
  | _, [], st => .ok (st, false)
  | stepIdx, sp :: rest, st =>
    match runStep env stepIdx sp st with
    | .error e => .error e
    | .ok (st1, brk) =>
      if brk then .ok (st1, true)
      else runSteps env (stepIdx + 1) rest st1

/-- One pass of the engine, `Pype._iterate` (main.py:1217-1435): initialize
the per-type annotation counter to -1 (main.py:1241), take a working copy of
the configuration (main.py:1245), walk the steps, and afterwards persist the
working copy exactly when it compares unequal (Python `==`, `pyEq`) to the
input (main.py:1427-1429) — unless the pass ended early on the restart flag,
whose `return` (main.py:1421) skips the comparison entirely.

`restart0` is the value of the process-wide `_config.pype_restart` flag on
entry (the Pype loop sets it to `False` at the top of each cycle,
main.py:1047-1050).  The closing visualization/GUI block (main.py:1437-1451)
talks only to the external visualization gate and is outside this model. -/
def iterateFrom (env : Env Img) (config : Yaml) (c1 : Container Img)
    (log0 : List PyExc) (restart0 : Bool) : Except PyExc (IterResult Img) :=
  let counter0 := counterInit
  match config.mlookup "processing_steps" with
  | none => .error ⟨"KeyError", "processing_steps"⟩
  | some stepsY =>
    match pyIter stepsY with
    | .error e => .error e
    | .ok steps =>
      let st0 : PassState Img :=
        { container := c1
          counter := counter0
          configUpdated := config
          flattened := []
          log := log0
          printed := []
          invoked := []
          events := []
          pypeRestart := restart0 }
      match runSteps env 0 steps st0 with
      | .error e => .error e
      | .ok (st1, brk) =>
        if brk then
          .ok { state := st1, earlyRestart := true, persisted := false }
        else
          let changed := !(Yaml.pyEq st1.configUpdated config)
          let st2 :=
            if changed then
              { st1 with printed := st1.printed ++ ["updating pype config file"] }
            else st1
          .ok { state := st2, earlyRestart := false, persisted := changed }

/-- One full pass: the container reset of main.py:1239-1240 (skipped in
dry-run mode), then the body of the pass. -/
def iterate (env : Env Img) (config : Yaml) (c0 : Container Img)
    (log0 : List PyExc) (restart0 : Bool) : Except PyExc (IterResult Img) :=
  iterateFrom env config (if env.dryRun then c0 else c0.reset) log0 restart0

/-- One cycle of the Pype loop as far as the engine is concerned
(main.py:1047-1076): the loop clears the process-wide restart flag at the
top of each cycle (`_config.pype_restart = False`, main.py:1050) and then
runs one pass. -/
def pypeLoopCycle (env : Env Img) (config : Yaml) (c0 : Container Img)
    (log0 : List PyExc) : Except PyExc (IterResult Img) :=
  iterate env config c0 log0 false

/-! ## Modelled collaborators and edit policies -/

/-- Modelled from the spec: the per-step operation registry.
`hasattr(eval(step_name), method_name)` (main.py:1308) probes the
`phenopype.core` modules, which are not part of this snapshot; the model
lists, per step, the method names the theorems exercise. -/
def coreRegistry : String → Option (String → Bool)
  | "preprocessing" => some (fun n =>
      n ∈ ["blur", "create_mask", "detect_mask", "write_comment",
           "select_channel", "detect_reference", "detect_QRcode"])
  | "segmentation" => some (fun n =>
      n ∈ ["threshold", "watershed", "morphology", "detect_contour",
           "detect_skeleton", "edit_contour"])
  | "measurement" => some (fun n =>
      n ∈ ["set_landmark", "detect_landmark", "set_polyline",
           "compute_shape_features", "compute_texture_features"])
  | "visualization" => some (fun n =>
      n ∈ ["select_canvas", "draw_contour", "draw_landmark", "draw_mask"])
  | "export" => some (fun n => n ∈ ["save_canvas", "save_results"])
  | _ => none

/-- Modelled from the spec: the keyword glue from the engine call
`container.run(fun=..., fun_kwargs=..., annotation_kwargs=...,
annotation_counter=...)` (main.py:1396) to this snapshot's `Container.run`
dispatcher (the matching-signature `run` is not in the snapshot): the
operation receives the remaining arguments, and the annotation id is the
`id` of the annotation-control block.  These operations leave the restart
flag untouched. -/
def oldRunInvoke (ops : CoreOps Img) : Invoke Img := fun fn funKwargs annKwargs _ c =>
  { result := .ok (containerRun ops c fn
      (match annKwargs.mlookup "id" with
       | some (.s x) => some x
       | _ => none) funKwargs) }

/-- Modelled from the spec: the annotation edit policies (§4.4).  The
`Container.run` that applies them when an annotation-producing method runs
again for an existing id is not part of this snapshot. -/
inductive EditPolicy where
  | overwrite
  | append
  | immutable
  deriving Repr, DecidableEq

/-- Modelled from the spec: the engine-side store update for a re-invocation
of an annotation-producing method (§4.4): `overwrite` and `append` store the
payload the operation produced from the existing annotation as context (the
merge rule is the operation's own), while `false`/immutable leaves the
stored record in place and only passes the existing annotation to the
operation as read-only context ("immutable once set").  Returns the new
store and the context handed to the operation. -/
def applyEditPolicy (store : Store) (typ idv : String) (pol : EditPolicy)
    (produce : Option Yaml → Yaml) : Store × Option Yaml :=
  let existing := alGet idv (storeGroup typ store)
  match pol, existing with
  | .overwrite, _ => (storeSet typ idv (produce existing) store, existing)
  | .append, _ => (storeSet typ idv (produce existing) store, existing)
  | .immutable, some _ => (store, existing)
  | .immutable, none => (storeSet typ idv (produce none) store, none)

/-! ## Canonically shaped documents and normalization -/

/-- A step mapping `{stepName: [methods]}`. -/
def mkStep (stepName : String) (methods : List Yaml) : Yaml :=
  .consM stepName (Yaml.ofL methods) .nilM

def mkSteps (steps : List (String × List Yaml)) : List Yaml :=
  steps.map (fun sp => mkStep sp.1 sp.2)

/-- A configuration document `{processing_steps: [{step: [methods]}, ...]}`. -/
def mkCfg (steps : List (String × List Yaml)) : Yaml :=
  .consM "processing_steps" (Yaml.ofL (mkSteps steps)) .nilM

/-- A method entry is normalized relative to a step registry when its name
resolves, its arguments are a well-formed dict, and — when the method is
annotation-producing — an explicit ANNOTATION block with `type`, `id` and
`edit` is present (spec §8: "all names current, all annotation-control
blocks explicit"). -/
def NormMethod (reg : String → Bool) (m : Yaml) : Prop :=
  (∃ name, m = .s name ∧ reg name = true ∧ alGet name annotationFunctions = none) ∨
  (∃ name args, m = .consM name args .nilM ∧ reg name = true ∧ args.wf = true ∧
    ((alGet name annotationFunctions = none ∧ (args.isDict = true ∨ args = .null)) ∨
     (∃ typ blk, alGet name annotationFunctions = some typ ∧ args.isDict = true ∧
        args.mlookup "ANNOTATION" = some blk ∧ blk.isDict = true ∧
        blk.mhas "type" = true ∧ blk.mhas "id" = true ∧ blk.mhas "edit" = true)))

/-- A canonically shaped document is normalized for `env` when every step
name is in the registry and every method entry is normalized. -/
def NormCfg {Img : Type} (env : Env Img) (steps : List (String × List Yaml)) : Prop :=
  ∀ sp ∈ steps, ∃ reg, env.registry sp.1 = some reg ∧ ∀ m ∈ sp.2, NormMethod reg m

/-- Pointwise Python-equality of two method lists. -/
def MethodsRel (ms1 ms2 : List Yaml) : Prop :=
  List.Forall₂ (fun x y => Yaml.pyEq x y = true) ms1 ms2

/-- Same step name, pointwise Python-equal method lists. -/
def StepRel (a b : String × List Yaml) : Prop :=
  a.1 = b.1 ∧ MethodsRel a.2 b.2

/-! ## Concrete fixtures for closed runs -/

/-- Trivial image operations over the one-point image type. -/
def unitOps : CoreOps Unit :=
  { blur := fun _ _ => ()
    createMask := fun _ _ => .null
    detectMask := fun _ _ => .null
    enterData := fun _ _ => .null
    detectReference := fun _ _ _ _ => .inl .null
    selectChannel := fun _ _ => ()
    threshold := fun _ _ => ()
    watershed := fun _ _ _ => ()
    morphology := fun _ _ => ()
    detectContours := fun _ _ => .null }

/-- Invocation through this snapshot's dispatcher with trivial operations. -/
def demoInvoke : Invoke Unit := oldRunInvoke unitOps

/-- A standard execute-mode environment over the one-point image type. -/
def demoEnv : Env Unit :=
  { registry := coreRegistry
    invoke := demoInvoke
    fixNames := true
    debug := false
    dryRun := false
    execute := true
    feedback := true }

/-- An invocation boundary whose operations always raise `ex`. -/
def failingInvoke (ex : PyExc) : Invoke Unit := fun _ _ _ _ _ =>
  { result := .error ex }

/-- An invocation boundary on which `blur` raises the process-wide restart
signal. -/
def restartingInvoke : Invoke Unit := fun fn _ _ _ c =>
  if fn = "blur" then { result := .ok c, restartAfter := some true }
  else { result := .ok c }

/-- `demoEnv` with every operation raising `ValueError: boom`. -/
def failEnv : Env Unit :=
  { demoEnv with invoke := failingInvoke ⟨"ValueError", "boom"⟩ }

/-- `failEnv` with the debug flag set. -/
def debugEnv : Env Unit :=
  { failEnv with debug := true }

/-- `demoEnv` with the restart-raising boundary. -/
def restartEnv : Env Unit :=
  { demoEnv with invoke := restartingInvoke }

/-- `demoEnv` with legacy-alias fixing off. -/
def fixOffEnv : Env Unit :=
  { demoEnv with fixNames := false }

/-- Identity-like image operations over `Nat` images, to observe buffer
resets in concrete runs. -/
def natOps : CoreOps Nat :=
  { blur := fun img _ => img
    createMask := fun _ _ => .null
    detectMask := fun _ _ => .null
    enterData := fun _ _ => .null
    detectReference := fun _ _ _ _ => .inl .null
    selectChannel := fun img _ => img
    threshold := fun img _ => img
    watershed := fun img _ _ => img
    morphology := fun img _ => img
    detectContours := fun _ _ => .null }

/-- A standard execute-mode environment over `Nat` images. -/
def natEnv : Env Nat :=
  { registry := coreRegistry
    invoke := oldRunInvoke natOps
    fixNames := true
    debug := false
    dryRun := false
    execute := true
    feedback := true }

/-- `natEnv` in dry-run mode. -/
def natEnvDry : Env Nat :=
  { natEnv with dryRun := true }

/-- A workspace mid-session: the working image has diverged from the
original, the binary and canvas buffers are set, and the store holds one
mask annotation. -/
def dirtyContainer : Container Nat :=
  { Container.init 5 with
    image := 7
    image_bin := some 9
    canvas := some 3
    annotations := storeSet "masks" "a" (.s "payload") initStore }

/-- The standard execute-mode environment over arbitrary image operations,
dispatching through this snapshot's `Container.run`. -/
def stdEnv {Img : Type} (ops : CoreOps Img) : Env Img :=
  { registry := coreRegistry
    invoke := oldRunInvoke ops
    fixNames := true
    debug := false
    dryRun := false
    execute := true
    feedback := true }

/-- An empty engine state over the one-point image type. -/
def demoState : PassState Unit :=
  { container := Container.init ()
    counter := counterInit
    configUpdated := Yaml.nilM
    flattened := []
    log := []
    printed := []
    invoked := []
    events := []
    pypeRestart := false }

def cfgThreeMasks : Yaml :=
  mkCfg [("preprocessing", [.s "create_mask", .s "detect_mask", .s "create_mask"])]

def cfgExplicitThenDefault : Yaml :=
  mkCfg [("preprocessing",
    [Yaml.ofM [("create_mask", Yaml.ofM [("ANNOTATION", Yaml.ofM [("id", .s "x")])])],
     .s "detect_mask"])]

/-- A normalized document whose explicit ANNOTATION block is not the first
key of the argument mapping. -/
def cfgAnnotTrailing : Yaml :=
  mkCfg [("preprocessing",
    [Yaml.ofM [("create_mask",
      Yaml.ofM [("tool", .s "rect"),
                ("ANNOTATION", Yaml.ofM [("type", .s "mask"), ("id", .s "a"),
                                         ("edit", .b false)])])]])]

def cfgUnknownName : Yaml := mkCfg [("preprocessing", [.s "mystery_fun"])]

def cfgThresholdOtsu : Yaml :=
  mkCfg [("segmentation", [Yaml.ofM [("threshold", Yaml.ofM [("method", .s "otsu")])]])]

def cfgBlurOnly : Yaml := mkCfg [("preprocessing", [.s "blur"])]

def cfgMorphOnly : Yaml := mkCfg [("segmentation", [.s "morphology"])]

def cfgSkeleton : Yaml := mkCfg [("segmentation", [.s "detect_skeleton"])]

def cfgRestartDemo : Yaml :=
  mkCfg [("preprocessing", [.s "create_mask", .s "blur", .s "detect_mask"])]

/-! ## Invariant definitions over the ghost traces -/

/-- Number of annotation events of a given type in a trace. -/
def countT (t : String) (evs : List AnnEvent) : Nat :=
  (evs.filter (fun e => e.typ == t)).length

/-- Every annotation event whose id was defaulted received the lowercase
letter indexed by the number of same-type events that preceded it in the
pass. -/
def IdsOk (evs : List AnnEvent) : Prop :=
  ∀ pre e suff, evs = pre ++ e :: suff → e.explicitId = false →
    ∃ ch, asciiLowercase.get? (countT e.typ pre) = some ch ∧
      e.idVal = .s (String.singleton ch)

/-- The per-type counter equals the per-type event count minus one
(`annotation_counter` starts at -1 and is incremented once per occurrence,
main.py:1241 and main.py:1335). -/
def CtrOk (counter : List (String × Int)) (evs : List AnnEvent) : Prop :=
  ∀ t, t ∈ annotationTypes → alGet t counter = some ((countT t evs : Int) - 1)

/-! ## Lemmas about the YAML model -/

namespace Yaml

@[simp] theorem mlookup_consM (k k2 : String) (v tl : Yaml) :
    mlookup k (consM k2 v tl) = if k2 = k then some v else mlookup k tl := rfl

@[simp] theorem mdel_consM (k k2 : String) (v tl : Yaml) :
    mdel k (consM k2 v tl) =
      if k2 = k then mdel k tl else consM k2 v (mdel k tl) := rfl

@[simp] theorem mset_consM (k k1 : String) (v v1 tl : Yaml) :
    mset (consM k1 v1 tl) k v =
      if k1 = k then consM k1 v tl else consM k1 v1 (mset tl k v) := rfl

@[simp] theorem mset_nilM (k : String) (v : Yaml) :
    mset nilM k v = consM k v nilM := rfl

theorem mhas_eq (k : String) (y : Yaml) : mhas k y = (mlookup k y).isSome := rfl

theorem mlookup_mdel (y : Yaml) (k k1 : String) :
    mlookup k1 (mdel k y) = if k1 = k then none else mlookup k1 y := by
  induction y
  case consM k2 v tl ihv ihtl =>
    by_cases h2 : k2 = k
    · rw [mdel_consM, if_pos h2, ihtl]
      by_cases h1 : k1 = k
      · simp [h1]
      · rw [if_neg h1, if_neg h1, mlookup_consM,
          if_neg (fun hk => h1 (hk.symm.trans h2))]
    · rw [mdel_consM, if_neg h2, mlookup_consM]
      by_cases h3 : k2 = k1
      · have hk1 : ¬ k1 = k := fun hk => h2 (h3.trans hk)
        rw [if_pos h3, if_neg hk1, mlookup_consM, if_pos h3]
      · rw [if_neg h3, ihtl, mlookup_consM, if_neg h3]
  all_goals simp [mdel, mlookup]

theorem mdel_of_not_mhas (y : Yaml) (k : String) (h : mhas k y = false) :
    mdel k y = y := by
  induction y
  case consM k2 v tl ihv ihtl =>
    rw [mhas_eq, mlookup_consM] at h
    by_cases h2 : k2 = k
    · rw [if_pos h2] at h
      simp at h
    · rw [if_neg h2] at h
      rw [mdel_consM, if_neg h2, ihtl (by rw [mhas_eq]; exact h)]
  all_goals simp [mdel]

theorem wf_mlookup {y v : Yaml} {k : String} (hw : wf y = true)
    (h : mlookup k y = some v) : wf v = true := by
  induction y
  case consM k2 v2 tl ihv ihtl =>
    rw [show wf (consM k2 v2 tl) = (!(mhas k2 tl) && wf v2 && wf tl) from rfl] at hw
    simp only [Bool.and_eq_true] at hw
    rw [mlookup_consM] at h
    by_cases h2 : k2 = k
    · rw [if_pos h2] at h
      cases h
      exact hw.1.2
    · rw [if_neg h2] at h
      exact ihtl hw.2 h
  all_goals simp [mlookup] at h

theorem mhas_mdel (y : Yaml) (k k1 : String) (h : mhas k1 y = false) :
    mhas k1 (mdel k y) = false := by
  rw [mhas_eq] at h ⊢
  rw [mlookup_mdel]
  by_cases h1 : k1 = k
  · simp [h1]
  · rw [if_neg h1]
    exact h

theorem wf_mdel {y : Yaml} (k : String) (hw : wf y = true) :
    wf (mdel k y) = true := by
  induction y
  case consM k2 v tl ihv ihtl =>
    rw [show wf (consM k2 v tl) = (!(mhas k2 tl) && wf v && wf tl) from rfl] at hw
    simp only [Bool.and_eq_true] at hw
    by_cases h2 : k2 = k
    · rw [mdel_consM, if_pos h2]
      exact ihtl hw.2
    · rw [mdel_consM, if_neg h2,
        show wf (consM k2 v (mdel k tl)) = (!(mhas k2 (mdel k tl)) && wf v && wf (mdel k tl)) from rfl]
      have hh : mhas k2 (mdel k tl) = false := by
        apply mhas_mdel
        have := hw.1.1
        simpa using this
      simp [hh, hw.1.2, ihtl hw.2]
  all_goals simpa [mdel] using hw

theorem pyEq_refl (y : Yaml) (hw : wf y = true) : pyEq y y = true := by
  induction y
  case consL hd tl ih1 ih2 =>
    rw [show wf (consL hd tl) = (wf hd && wf tl) from rfl] at hw
    simp only [Bool.and_eq_true] at hw
    rw [show pyEq (consL hd tl) (consL hd tl) = (pyEq hd hd && pyEq tl tl) from rfl]
    simp [ih1 hw.1, ih2 hw.2]
  case consM k v tl ihv ihtl =>
    rw [show wf (consM k v tl) = (!(mhas k tl) && wf v && wf tl) from rfl] at hw
    simp only [Bool.and_eq_true] at hw
    have hnot : mhas k tl = false := by
      have := hw.1.1
      simpa using this
    rw [show pyEq (consM k v tl) (consM k v tl) =
      (match mlookup k (consM k v tl) with
       | some w => pyEq v w && pyEq tl (mdel k (consM k v tl))
       | none => false) from rfl]
    rw [mlookup_consM, if_pos rfl]
    simp only
    rw [mdel_consM, if_pos rfl, mdel_of_not_mhas tl k hnot]
    simp [ihv hw.1.2, ihtl hw.2]
  all_goals simp [pyEq]

/-- Moving one entry of a duplicate-free mapping to the front yields a
Python-equal mapping: the key-order-insensitive `dict` comparison cannot see
the move. -/
theorem pyEq_front (y blk : Yaml) (k : String) (hw : wf y = true)
    (h : mlookup k y = some blk) :
    pyEq (consM k blk (mdel k y)) y = true := by
  rw [show pyEq (consM k blk (mdel k y)) y =
    (match mlookup k y with
     | some w => pyEq blk w && pyEq (mdel k y) (mdel k y)
     | none => false) from rfl]
  rw [h]
  simp only
  have hblk : wf blk = true := wf_mlookup hw h
  simp [pyEq_refl blk hblk, pyEq_refl (mdel k y) (wf_mdel k hw)]

theorem isDict_mset (y : Yaml) (k : String) (v : Yaml) :
    (mset y k v).isDict = y.isDict := by
  induction y
  case consM k1 v1 tl ihv ihtl =>
    by_cases h : k1 = k
    · rw [mset_consM, if_pos h]
      rfl
    · rw [mset_consM, if_neg h,
        show (consM k1 v1 (mset tl k v)).isDict = (mset tl k v).isDict from rfl, ihtl]
      rfl
  case nilM => rw [mset_nilM]; rfl
  all_goals simp [mset]

theorem mlookup_mset_self (y : Yaml) (k : String) (v : Yaml)
    (hm : y.isDict = true) : mlookup k (mset y k v) = some v := by
  induction y
  case consM k1 v1 tl ihv ihtl =>
    by_cases h : k1 = k
    · rw [mset_consM, if_pos h, mlookup_consM, if_pos h]
    · rw [mset_consM, if_neg h, mlookup_consM, if_neg h]
      exact ihtl (by simpa [show (consM k1 v1 tl).isDict = tl.isDict from rfl] using hm)
  case nilM => simp
  all_goals simp [isDict] at hm

theorem mlookup_mset_ne (y : Yaml) (k k1 : String) (v : Yaml) (h : k1 ≠ k) :
    mlookup k1 (mset y k v) = mlookup k1 y := by
  induction y
  case consM k2 v2 tl ihv ihtl =>
    by_cases h2 : k2 = k
    · rw [mset_consM, if_pos h2, mlookup_consM, mlookup_consM]
      have hne : ¬ k2 = k1 := fun hh => h (hh.symm.trans h2)
      rw [if_neg hne, if_neg hne]
    · rw [mset_consM, if_neg h2, mlookup_consM, mlookup_consM]
      by_cases h1 : k2 = k1
      · rw [if_pos h1, if_pos h1]
      · rw [if_neg h1, if_neg h1, ihtl]
  case nilM =>
    rw [mset_nilM, mlookup_consM, if_neg (fun hh => h hh.symm)]
  all_goals simp [mset]

end Yaml

/-! ## Association lists, tables and the letter sequence -/

@[simp] theorem alGet_nil {α : Type} (k : String) : alGet k ([] : List (String × α)) = none := rfl

@[simp] theorem alGet_cons {α : Type} (k k1 : String) (v : α) (tl : List (String × α)) :
    alGet k ((k1, v) :: tl) = if k1 = k then some v else alGet k tl := rfl

@[simp] theorem alSet_nil {α : Type} (k : String) (v : α) : alSet k v [] = [(k, v)] := rfl

@[simp] theorem alSet_cons {α : Type} (k k1 : String) (v v1 : α) (tl : List (String × α)) :
    alSet k v ((k1, v1) :: tl) =
      if k1 = k then (k1, v) :: tl else (k1, v1) :: alSet k v tl := rfl

theorem alGet_alSet_self {α : Type} (k : String) (v : α) (l : List (String × α)) :
    alGet k (alSet k v l) = some v := by
  induction l with
  | nil => simp
  | cons hd tl ih =>
      obtain ⟨k1, v1⟩ := hd
      by_cases h : k1 = k
      · simp [h]
      · simp [h, ih]

theorem alGet_alSet_ne {α : Type} (k k1 : String) (v : α) (l : List (String × α))
    (h : k1 ≠ k) : alGet k1 (alSet k v l) = alGet k1 l := by
  induction l with
  | nil => simp [if_neg (fun hh : k = k1 => h hh.symm)]
  | cons hd tl ih =>
      obtain ⟨k2, v2⟩ := hd
      by_cases h2 : k2 = k
      · have hne : ¬ k = k1 := fun hh => h hh.symm
        simp [h2, hne]
      · by_cases h1 : k2 = k1
        · simp [h2, h1, h]
        · simp [h2, h1, ih]

theorem alGet_map_const {α : Type} (v : α) (l : List String) (t : String)
    (ht : t ∈ l) : alGet t (l.map (fun x => (x, v))) = some v := by
  induction l with
  | nil => cases ht
  | cons hd tl ih =>
      by_cases h : hd = t
      · simp [h]
      · rcases List.mem_cons.mp ht with h1 | h1
        · exact absurd h1.symm h
        · simp [h, ih h1]

theorem alGet_mem_snd {α : Type} (k : String) (l : List (String × α)) (v : α)
    (h : alGet k l = some v) : v ∈ l.map Prod.snd := by
  induction l with
  | nil => simp at h
  | cons hd tl ih =>
      obtain ⟨k1, v1⟩ := hd
      rw [alGet_cons] at h
      by_cases h1 : k1 = k
      · rw [if_pos h1] at h
        cases h
        simp
      · rw [if_neg h1] at h
        simpa using Or.inr (ih h)

theorem alGet_mem_fst {α : Type} (k : String) (l : List (String × α)) (v : α)
    (h : alGet k l = some v) : k ∈ l.map Prod.fst := by
  induction l with
  | nil => simp at h
  | cons hd tl ih =>
      obtain ⟨k1, v1⟩ := hd
      rw [alGet_cons] at h
      by_cases h1 : k1 = k
      · simp [h1]
      · rw [if_neg h1] at h
        simpa using Or.inr (ih h)

/-- The type of an annotation-producing method is one of the counter's key
types. -/
theorem typ_mem_annotationTypes (name typ : String)
    (h : alGet name annotationFunctions = some typ) : typ ∈ annotationTypes := by
  have := alGet_mem_snd _ _ _ h
  exact List.mem_dedup.mpr this

theorem pyStrIndex_ok_get? (stri : List Char) (i : Int) (ch : Char) (h0 : 0 ≤ i)
    (h : pyStrIndex stri i = .ok ch) : stri.get? i.toNat = some ch := by
  have hneg : ¬ i < 0 := not_lt.mpr h0
  simp only [pyStrIndex] at h
  have hif : (if i < 0 then i + (stri.length : Int) else i) = i := if_neg hneg
  simp only [hif] at h
  split at h
  · next hcond =>
      have hn : i.toNat < stri.length := by omega
      rw [List.get?_eq_get hn]
      injection h with h2
      rw [← h2]
  · cases h

/-! ## The per-type counter invariant and the assigned-id invariant -/

theorem countT_append (t : String) (evs : List AnnEvent) (e : AnnEvent) :
    countT t (evs ++ [e]) = countT t evs + (if e.typ = t then 1 else 0) := by
  by_cases h : e.typ = t
  · simp [countT, List.filter_append, h]
  · simp [countT, List.filter_append, h]

theorem append_singleton_cases {α : Type} {l pre suff : List α} {a e : α}
    (h : l ++ [a] = pre ++ e :: suff) :
    (pre = l ∧ e = a ∧ suff = []) ∨
      (∃ suff2, suff = suff2 ++ [a] ∧ l = pre ++ e :: suff2) := by
  rcases suff.eq_nil_or_concat with hs | ⟨suff2, bb, hs⟩
  · subst hs
    have := List.append_inj' h (by simp)
    exact Or.inl ⟨this.1.symm, by simpa using this.2.symm, rfl⟩
  · subst hs
    simp only [List.concat_eq_append] at h ⊢
    rw [show pre ++ e :: (suff2 ++ [bb]) = (pre ++ e :: suff2) ++ [bb] by simp] at h
    have := List.append_inj' h (by simp)
    refine Or.inr ⟨suff2, ?_, this.1⟩
    have hb : a = bb := by simpa using this.2
    rw [hb]

theorem IdsOk_nil : IdsOk [] := by
  intro pre e suff h
  cases pre <;> simp at h

theorem IdsOk_append (evs : List AnnEvent) (e : AnnEvent) (h : IdsOk evs)
    (he : e.explicitId = false →
      ∃ ch, asciiLowercase.get? (countT e.typ evs) = some ch ∧
        e.idVal = .s (String.singleton ch)) :
    IdsOk (evs ++ [e]) := by
  intro pre e2 suff heq hexp
  rcases append_singleton_cases heq with ⟨hpre, he2, _⟩ | ⟨suff2, _, hl⟩
  · subst hpre
    subst he2
    exact he hexp
  · exact h pre e2 suff2 hl hexp

theorem CtrOk_init : CtrOk counterInit [] := by
  intro t ht
  rw [counterInit, alGet_map_const _ _ _ ht]
  simp [countT]

theorem CtrOk_append (counter : List (String × Int)) (evs : List AnnEvent)
    (e : AnnEvent) (n : Int) (h : CtrOk counter evs)
    (hn : alGet e.typ counter = some n) :
    CtrOk (alSet e.typ (n + 1) counter) (evs ++ [e]) := by
  intro t ht
  by_cases hteq : t = e.typ
  · subst hteq
    rw [alGet_alSet_self, countT_append]
    have h2 := h e.typ ht
    rw [hn] at h2
    injection h2 with h3
    rw [if_pos rfl]
    congr 1
    push_cast
    omega
  · rw [alGet_alSet_ne _ _ _ _ hteq, countT_append,
      if_neg (fun hh => hteq hh.symm)]
    simpa using h t ht

/-! ## Inversion lemmas for the annotation section -/

theorem splitAnnBlock_isDict (a blk r : Yaml) (h : splitAnnBlock a = .ok (blk, r)) :
    blk.isDict = true := by
  unfold splitAnnBlock at h
  split at h
  · cases h
    rfl
  · split at h
    · cases h
      assumption
    · cases h

theorem annDefaults_id_default (mn typ : String) (cnt : Int) (blk0 blk3 : Yaml)
    (hdict : blk0.isDict = true) (hid : blk0.mhas "id" = false)
    (h : annDefaults mn typ cnt blk0 = .ok blk3) :
    ∃ ch, pyStrIndex asciiLowercase (cnt + 1) = .ok ch ∧
      blk3.mlookup "id" = some (.s (String.singleton ch)) := by
  have hd1 : (if blk0.mhas "type" then blk0 else blk0.mset "type" (.s typ)).isDict = true := by
    split
    · exact hdict
    · rw [Yaml.isDict_mset]
      exact hdict
  unfold annDefaults at h
  rw [hid] at h
  simp only [Bool.false_eq_true, if_false, bind, Except.bind] at h
  split at h
  · cases h
  case _ blk2 hblk2 =>
    split at hblk2
    · cases hblk2
    case _ ch hch =>
      cases hblk2
      simp only [pure, Except.pure] at h
      cases h
      refine ⟨ch, hch, ?_⟩
      split
      · exact Yaml.mlookup_mset_self _ "id" _ hd1
      · rw [Yaml.mlookup_mset_ne _ _ _ _ (by decide)]
        exact Yaml.mlookup_mset_self _ "id" _ hd1

theorem annDefaults_edit_default (mn typ : String) (cnt : Int) (blk0 blk3 : Yaml)
    (hdict : blk0.isDict = true) (hed : blk0.mhas "edit" = false)
    (h : annDefaults mn typ cnt blk0 = .ok blk3) :
    blk3.mlookup "edit" =
      some (if editOverwriteNames.contains mn then .s "overwrite" else .b false) := by
  have hd1 : (if blk0.mhas "type" then blk0 else blk0.mset "type" (.s typ)).isDict = true := by
    split
    · exact hdict
    · rw [Yaml.isDict_mset]
      exact hdict
  unfold annDefaults at h
  simp only [bind, Except.bind] at h
  split at h
  · cases h
  case _ blk2 hblk2 =>
    have hd2 : blk2.isDict = true := by
      split at hblk2
      · cases hblk2
        exact hd1
      · split at hblk2
        · cases hblk2
        · cases hblk2
          rw [Yaml.isDict_mset]
          exact hd1
    simp only [pure, Except.pure] at h
    cases h
    rw [hed]
    simp only [Bool.false_eq_true, if_false]
    exact Yaml.mlookup_mset_self _ "edit" _ hd2

theorem annDefaults_explicit_all (mn typ : String) (cnt : Int) (blk0 : Yaml)
    (hty : blk0.mhas "type" = true) (hid : blk0.mhas "id" = true)
    (hed : blk0.mhas "edit" = true) :
    annDefaults mn typ cnt blk0 = .ok blk0 := by
  unfold annDefaults
  rw [hty, hid, hed]
  simp [bind, Except.bind, pure, Except.pure]

theorem annSection_some_inv (name : String) (args : Yaml)
    (counter : List (String × Int)) (out : AnnOut)
    (h : annSection name args counter = .ok (some out)) :
    ∃ typ cnt blk0 args2 blk3,
      alGet name annotationFunctions = some typ ∧
      alGet typ counter = some cnt ∧
      splitAnnBlock args = .ok (blk0, args2) ∧
      annDefaults name typ cnt blk0 = .ok blk3 ∧
      out = { counter := alSet typ (cnt + 1) counter
              methodArgs := args2
              annBlock := blk3
              event :=
                { typ := typ
                  explicitId := blk0.mhas "id"
                  idVal := (blk3.mlookup "id").getD .null
                  explicitEdit := blk0.mhas "edit"
                  editVal := (blk3.mlookup "edit").getD .null } } := by
  unfold annSection at h
  split at h
  · cases h
  case _ typ hname =>
    split at h
    · cases h
    case _ cnt hcnt =>
      split at h
      · cases h
      case _ blk0 args2 hsplit =>
        split at h
        · cases h
        case _ blk3 hdef =>
          cases h
          exact ⟨typ, cnt, blk0, args2, blk3, hname, hcnt, hsplit, hdef, rfl⟩

/-- What the counter/event invariants need from a successful annotation
section: the event's type is a counter key, the counter is bumped at that
type, and a defaulted id is the letter at the bumped counter. -/
theorem annSection_event (name : String) (args : Yaml)
    (counter : List (String × Int)) (out : AnnOut)
    (h : annSection name args counter = .ok (some out)) :
    out.event.typ ∈ annotationTypes ∧
      ∃ cnt, alGet out.event.typ counter = some cnt ∧
        out.counter = alSet out.event.typ (cnt + 1) counter ∧
        (out.event.explicitId = false →
          ∃ ch, pyStrIndex asciiLowercase (cnt + 1) = .ok ch ∧
            out.event.idVal = .s (String.singleton ch)) := by
  obtain ⟨typ, cnt, blk0, args2, blk3, hname, hcnt, hsplit, hdef, hout⟩ :=
    annSection_some_inv name args counter out h
  subst hout
  refine ⟨typ_mem_annotationTypes name typ hname, cnt, hcnt, rfl, ?_⟩
  intro hexp
  simp only at hexp
  obtain ⟨ch, hch, hlook⟩ :=
    annDefaults_id_default name typ cnt blk0 blk3
      (splitAnnBlock_isDict args blk0 args2 hsplit) hexp hdef
  refine ⟨ch, hch, ?_⟩
  simp only [hlook]
  rfl

/-! ## State-shape lemmas for the per-method pipeline -/

theorem resolveName_shape {Img : Type} (env : Env Img) (i : Nat) (sn : String)
    (j : Nat) (n0 : String) (a0 : Yaml) (st st2 : PassState Img)
    (n1 : String) (al : Bool)
    (h : resolveName env i sn j n0 a0 st = .ok (st2, n1, al)) :
    st2.counter = st.counter ∧ st2.events = st.events ∧ st2.log = st.log ∧
      st2.invoked = st.invoked ∧ st2.pypeRestart = st.pypeRestart ∧
      st2.container = st.container := by
  unfold resolveName at h
  split at h
  · cases h
  · split at h
    · cases h
      exact ⟨rfl, rfl, rfl, rfl, rfl, rfl⟩
    · split at h
      · split at h
        · cases h
        · split at h
          · cases h
            exact ⟨rfl, rfl, rfl, rfl, rfl, rfl⟩
          · cases h
            exact ⟨rfl, rfl, rfl, rfl, rfl, rfl⟩
      · cases h
        exact ⟨rfl, rfl, rfl, rfl, rfl, rfl⟩

theorem handleInvoke_shape {Img : Type} (d : Bool) (sn n1 : String)
    (res : Except PyExc (Container Img)) (st st6 : PassState Img)
    (h : handleInvoke d sn n1 res st = .ok st6) :
    st6.counter = st.counter ∧ st6.events = st.events ∧
      st6.invoked = st.invoked ∧ st6.configUpdated = st.configUpdated ∧
      st6.pypeRestart = st.pypeRestart ∧ st6.flattened = st.flattened := by
  unfold handleInvoke at h
  split at h
  · cases h
    exact ⟨rfl, rfl, rfl, rfl, rfl, rfl⟩
  · split at h
    · cases h
    · cases h
      exact ⟨rfl, rfl, rfl, rfl, rfl, rfl⟩

theorem passiveWrite_shape {Img : Type} (fb : Bool) (i : Nat) (sn : String)
    (j : Nat) (n1 : String) (a4 : Yaml) (al2 : Bool) (st3 : PassState Img) :
    (passiveWrite fb i sn j n1 a4 al2 st3).counter = st3.counter ∧
      (passiveWrite fb i sn j n1 a4 al2 st3).events = st3.events ∧
      (passiveWrite fb i sn j n1 a4 al2 st3).invoked = st3.invoked ∧
      (passiveWrite fb i sn j n1 a4 al2 st3).log = st3.log ∧
      (passiveWrite fb i sn j n1 a4 al2 st3).pypeRestart = st3.pypeRestart ∧
      (passiveWrite fb i sn j n1 a4 al2 st3).container = st3.container := by
  unfold passiveWrite
  split
  · exact ⟨rfl, rfl, rfl, rfl, rfl, rfl⟩
  · exact ⟨rfl, rfl, rfl, rfl, rfl, rfl⟩

theorem execMethod_ce {Img : Type} (env : Env Img) (i : Nat) (sn : String)
    (j : Nat) (n1 : String) (args3 annBlock : Yaml) (al2 : Bool)
    (st3 st7 : PassState Img) (brk : Bool)
    (h : execMethod env i sn j n1 args3 annBlock al2 st3 = .ok (st7, brk)) :
    st7.counter = st3.counter ∧ st7.events = st3.events := by
  unfold execMethod at h
  split at h
  · generalize hargs :
      (if env.feedback = true then args3 else Yaml.mset args3 "passive" (Yaml.b true)) = args4 at h
    dsimp only [] at h
    split at h
    · cases h
    case _ st6 h6 =>
      obtain ⟨hc6, he6, _, _, _, _⟩ := handleInvoke_shape _ _ _ _ _ _ h6
      obtain ⟨hpc, hpe, _, _, _, _⟩ :=
        passiveWrite_shape env.feedback i sn j n1 args4 al2 st3
      split at h
      · cases h
        exact ⟨by simp only at hc6 ⊢; rw [hc6, hpc],
               by simp only at he6 ⊢; rw [he6, hpe]⟩
      · cases h
        exact ⟨by simp only at hc6 ⊢; rw [hc6, hpc],
               by simp only at he6 ⊢; rw [he6, hpe]⟩
  · cases h
    exact ⟨rfl, rfl⟩

/-- Evolution of the per-type counter and the event trace across one method:
either the method is not annotation-producing and both are unchanged, or the
annotation section ran once and appended one event. -/
theorem processMethod_ce {Img : Type} (env : Env Img) (i : Nat) (sn : String)
    (j : Nat) (m : Yaml) (st st7 : PassState Img) (brk : Bool)
    (h : processMethod env i sn j m st = .ok (st7, brk)) :
    (st7.counter = st.counter ∧ st7.events = st.events) ∨
      (∃ out name1 args0, annSection name1 args0 st.counter = .ok (some out) ∧
         st7.counter = out.counter ∧ st7.events = st.events ++ [out.event]) := by
  unfold processMethod at h
  split at h
  · cases h
  case _ name0 args0 hp =>
    dsimp only [] at h
    have hst1c : (if env.execute = true then
        { st with printed := st.printed ++ [name0] } else st).counter = st.counter := by
      split <;> rfl
    have hst1e : (if env.execute = true then
        { st with printed := st.printed ++ [name0] } else st).events = st.events := by
      split <;> rfl
    generalize hg : (if env.execute = true then
        { st with printed := st.printed ++ [name0] } else st) = st1 at h hst1c hst1e
    split at h
    · cases h
    case _ st2 name1 aliased hres =>
      obtain ⟨hc2, he2, _, _, _, _⟩ :=
        resolveName_shape env i sn j name0 args0 st1 st2 name1 aliased hres
      split at h
      · cases h
      case _ annRes hann =>
        rw [hc2, hst1c] at hann
        cases annRes with
        | some out =>
            simp only [applyAnnWrite] at h
            obtain ⟨hc7, he7⟩ := execMethod_ce _ _ _ _ _ _ _ _ _ _ _ h
            refine Or.inr ⟨out, name1, args0, hann, ?_, ?_⟩
            · rw [hc7]
            · rw [he7]
              dsimp only
              rw [he2, hst1e]
        | none =>
            simp only [applyAnnWrite] at h
            obtain ⟨hc7, he7⟩ := execMethod_ce _ _ _ _ _ _ _ _ _ _ _ h
            exact Or.inl ⟨by rw [hc7, hc2, hst1c], by rw [he7, he2, hst1e]⟩

/-! ## The counter/id invariant through the pass -/

theorem processMethod_inv {Img : Type} (env : Env Img) (i : Nat) (sn : String)
    (j : Nat) (m : Yaml) (st st7 : PassState Img) (brk : Bool)
    (h : processMethod env i sn j m st = .ok (st7, brk))
    (hc : CtrOk st.counter st.events) (hi : IdsOk st.events) :
    CtrOk st7.counter st7.events ∧ IdsOk st7.events := by
  rcases processMethod_ce env i sn j m st st7 brk h with
    ⟨hc7, he7⟩ | ⟨out, name1, args0, hann, hc7, he7⟩
  · rw [hc7, he7]
    exact ⟨hc, hi⟩
  · obtain ⟨hmem, cnt, hcnt, hctr, hid⟩ := annSection_event name1 args0 st.counter out hann
    have hcntval : cnt = (countT out.event.typ st.events : Int) - 1 := by
      have h2 := hc out.event.typ hmem
      rw [hcnt] at h2
      injection h2
  
    constructor
    · rw [hc7, he7, hctr]
      exact CtrOk_append st.counter st.events out.event cnt hc hcnt
    · rw [he7]
      refine IdsOk_append st.events out.event hi ?_
      intro hexp
      obtain ⟨ch, hch, hiv⟩ := hid hexp
      refine ⟨ch, ?_, hiv⟩
      have h0 : 0 ≤ cnt + 1 := by omega
      have h3 := pyStrIndex_ok_get? asciiLowercase (cnt + 1) ch h0 hch
      have htn : (cnt + 1).toNat = countT out.event.typ st.events := by omega
      rw [htn] at h3
      exact h3

theorem visAutoselect_shape {Img : Type} (env : Env Img) (sn : String)
    (ml : Yaml) (st st3 : PassState Img)
    (h : visAutoselect env sn ml st = .ok st3) :
    st3.counter = st.counter ∧ st3.events = st.events ∧ st3.log = st.log ∧
      st3.configUpdated = st.configUpdated ∧ st3.flattened = st.flattened := by
  unfold visAutoselect at h
  split at h
  · split at h
    · cases h
    · split at h
      · cases h
      · split at h
        · dsimp only [] at h
          split at h
          · cases h
            exact ⟨rfl, rfl, rfl, rfl, rfl⟩
          · cases h
        · cases h
          exact ⟨rfl, rfl, rfl, rfl, rfl⟩
  · cases h
    exact ⟨rfl, rfl, rfl, rfl, rfl⟩

theorem stepHeader_shape {Img : Type} (ex : Bool) (sn : String)
    (st1 : PassState Img) :
    (stepHeader ex sn st1).counter = st1.counter ∧
      (stepHeader ex sn st1).events = st1.events ∧
      (stepHeader ex sn st1).log = st1.log ∧
      (stepHeader ex sn st1).configUpdated = st1.configUpdated ∧
      (stepHeader ex sn st1).flattened = st1.flattened := by
  unfold stepHeader
  split
  · exact ⟨rfl, rfl, rfl, rfl, rfl⟩
  · exact ⟨rfl, rfl, rfl, rfl, rfl⟩

theorem runMethods_inv {Img : Type} (env : Env Img) (i : Nat) (sn : String)
    (ms : List Yaml) (j : Nat) (st st1 : PassState Img) (brk : Bool)
    (h : runMethods env i sn j ms st = .ok (st1, brk))
    (hc : CtrOk st.counter st.events) (hi : IdsOk st.events) :
    CtrOk st1.counter st1.events ∧ IdsOk st1.events := by
  induction ms generalizing j st with
  | nil =>
      unfold runMethods at h
      cases h
      exact ⟨hc, hi⟩
  | cons m rest ih =>
      unfold runMethods at h
      split at h
      · cases h
      case _ stx brk2 hpm =>
        obtain ⟨hcx, hix⟩ := processMethod_inv env i sn j m st stx brk2 hpm hc hi
        split at h
        · cases h
          exact ⟨hcx, hix⟩
        · exact ih (j + 1) stx h hcx hix

theorem runStep_inv {Img : Type} (env : Env Img) (i : Nat) (step : Yaml)
    (st st1 : PassState Img) (brk : Bool)
    (h : runStep env i step st = .ok (st1, brk))
    (hc : CtrOk st.counter st.events) (hi : IdsOk st.events) :
    CtrOk st1.counter st1.events ∧ IdsOk st1.events := by
  unfold runStep at h
  split at h
  · cases h
    exact ⟨hc, hi⟩
  · cases h
  case _ sn ml rest =>
    dsimp only [] at h
    split at h
    · cases h
      exact ⟨hc, hi⟩
    · split at h
      · cases h
      case _ st3 hvis =>
        obtain ⟨hc3, he3, _, _, _⟩ := visAutoselect_shape env sn ml _ st3 hvis
        obtain ⟨hhc, hhe, _, _, _⟩ :=
          stepHeader_shape env.execute sn
            { st with flattened := alSet sn [] st.flattened }
        split at h
        · cases h
        case _ items hitems =>
          refine runMethods_inv env i sn items 0 st3 st1 brk h ?_ ?_
          · rw [hc3, hhc, he3, hhe]
            exact hc
          · rw [he3, hhe]
            exact hi
  · cases h

theorem runSteps_inv {Img : Type} (env : Env Img) (steps : List Yaml)
    (i : Nat) (st st1 : PassState Img) (brk : Bool)
    (h : runSteps env i steps st = .ok (st1, brk))
    (hc : CtrOk st.counter st.events) (hi : IdsOk st.events) :
    CtrOk st1.counter st1.events ∧ IdsOk st1.events := by
  induction steps generalizing i st with
  | nil =>
      unfold runSteps at h
      cases h
      exact ⟨hc, hi⟩
  | cons sp rest ih =>
      unfold runSteps at h
      split at h
      · cases h
      case _ stx brk2 hstep =>
        obtain ⟨hcx, hix⟩ := runStep_inv env i sp st stx brk2 hstep hc hi
        split at h
        · cases h
          exact ⟨hcx, hix⟩
        · exact ih (i + 1) stx h hcx hix

/-- The invariant established by one whole pass. -/
theorem iterate_inv {Img : Type} (env : Env Img) (cfg : Yaml)
    (c0 : Container Img) (log0 : List PyExc) (r0 : Bool) (res : IterResult Img)
    (h : iterate env cfg c0 log0 r0 = .ok res) :
    CtrOk res.state.counter res.state.events ∧ IdsOk res.state.events := by
  unfold iterate iterateFrom at h
  split at h
  · cases h
  · split at h
    · cases h
    case _ steps hsteps =>
      dsimp only [] at h
      split at h
      · cases h
      case _ stx brk2 hrun =>
        have hinv := runSteps_inv env steps 0 _ stx brk2 hrun CtrOk_init IdsOk_nil
        split at h
        · cases h
          exact hinv
        · split at h
          · cases h
            exact hinv
          · cases h
            exact hinv

/-! ## The first-N-letters property of a fully defaulted pass -/

theorem IdsOk_front (evs : List AnnEvent) (e : AnnEvent)
    (h : IdsOk (evs ++ [e])) : IdsOk evs := by
  intro pre e2 suff heq hexp
  exact h pre e2 (suff ++ [e]) (by rw [heq]; simp) hexp

theorem ids_letters (t : String) (evs : List AnnEvent) (hids : IdsOk evs)
    (hdef : ∀ e ∈ evs, e.explicitId = false) :
    (evs.filter (fun e => e.typ == t)).map (fun e => e.idVal) =
      (asciiLowercase.take (countT t evs)).map
        (fun ch => Yaml.s (String.singleton ch)) := by
  induction evs using List.reverseRecOn with
  | nil => simp [countT]
  | append_singleton pre e ih =>
    have hpre : IdsOk pre := IdsOk_front pre e hids
    have hdefpre : ∀ x ∈ pre, x.explicitId = false := fun x hx => hdef x (by simp [hx])
    have hrec := ih hpre hdefpre
    have hexp : e.explicitId = false := hdef e (by simp)
    obtain ⟨ch, hch, hiv⟩ := hids pre e [] rfl hexp
    by_cases ht : e.typ = t
    · subst ht
      rw [countT_append, if_pos rfl, List.filter_append, List.map_append]
      have hfe : [e].filter (fun x => x.typ == e.typ) = [e] := by simp
      rw [hfe]
      rw [List.get?_eq_getElem?] at hch
      have htake : asciiLowercase.take (countT e.typ pre + 1) =
          asciiLowercase.take (countT e.typ pre) ++ [ch] := by
        rw [List.take_succ, hch]
        rfl
      rw [htake, List.map_append, hrec, List.map_cons, List.map_nil, hiv]
      rfl
    · rw [countT_append, if_neg ht, List.filter_append]
      have hfe : [e].filter (fun x => x.typ == t) = [] := by
        simp [ht]
      rw [hfe]
      simpa using hrec

/-- C10: in every pass, the per-type annotation counter is incremented once
for every occurrence of an annotation-producing method of that type — the
occurrences that carry an explicit id included (the counter it holds after
the pass is the total occurrence count minus one, since it starts at -1) —
and a method that defaults its id receives the letter at the position of the
total occurrence count of its type so far, not the next letter unused in the
store: explicit-id occurrences consume letters from the default sequence. -/
theorem claim_C10 {Img : Type} (env : Env Img) (cfg : Yaml)
    (c0 : Container Img) (log0 : List PyExc) (r0 : Bool) (res : IterResult Img)
    (h : iterate env cfg c0 log0 r0 = .ok res) :
    (∀ t, t ∈ annotationTypes →
       alGet t res.state.counter = some ((countT t res.state.events : Int) - 1)) ∧
    (∀ pre e suff, res.state.events = pre ++ e :: suff → e.explicitId = false →
       ∃ ch, asciiLowercase.get? (countT e.typ pre) = some ch ∧
         e.idVal = .s (String.singleton ch)) := by
  have hinv := iterate_inv env cfg c0 log0 r0 res h
  exact ⟨hinv.1, hinv.2⟩

/-- A concrete run of C10: `create_mask` with explicit id `"x"` followed by a
defaulted `detect_mask` of the same type; the counter ends at 1 (two
occurrences) and the defaulted id is `"b"` — the letter `"a"` is consumed by
the explicit occurrence even though no annotation stored under `"a"`
exists. -/
theorem claim_C10_witness :
    ∃ res, iterate demoEnv cfgExplicitThenDefault (Container.init ()) [] false
        = .ok res ∧
      alGet "mask" res.state.counter
        = some ((countT "mask" res.state.events : Int) - 1) ∧
      res.state.events.map (fun e => (e.explicitId, e.idVal))
        = [(true, .s "x"), (false, .s "b")] := by
  refine ⟨_, rfl, ?_, by decide⟩
  exact (claim_C10 demoEnv cfgExplicitThenDefault (Container.init ()) [] false
    _ rfl).1 "mask" (by decide)

/-- C1: in a pass whose annotation events all have defaulted ids (no
ANNOTATION block carries an explicit id), the ids assigned to the
annotation-producing methods of any given type are exactly the first N
lowercase letters "a", "b", ... in method-execution order, produced by the
per-type counter that starts at -1 and is incremented and mapped through the
lowercase alphabet before each assignment. -/
theorem claim_C1 {Img : Type} (env : Env Img) (cfg : Yaml)
    (c0 : Container Img) (log0 : List PyExc) (r0 : Bool) (res : IterResult Img)
    (t : String) (h : iterate env cfg c0 log0 r0 = .ok res)
    (hdef : ∀ e ∈ res.state.events, e.explicitId = false) :
    (res.state.events.filter (fun e => e.typ == t)).map (fun e => e.idVal) =
      (asciiLowercase.take (countT t res.state.events)).map
        (fun ch => Yaml.s (String.singleton ch)) :=
  ids_letters t res.state.events (iterate_inv env cfg c0 log0 r0 res h).2 hdef

/-- A concrete run of C1: three defaulted annotation-producing methods of
type `"mask"` receive ids "a", "b", "c" in execution order. -/
theorem claim_C1_witness :
    ∃ res, iterate demoEnv cfgThreeMasks (Container.init ()) [] false = .ok res ∧
      (∀ e ∈ res.state.events, e.explicitId = false) ∧
      (res.state.events.filter (fun e => e.typ == "mask")).map (fun e => e.idVal)
        = [.s "a", .s "b", .s "c"] := by
  refine ⟨_, rfl, by decide, ?_⟩
  have h := claim_C1 demoEnv cfgThreeMasks (Container.init ()) [] false _ "mask"
    rfl (by decide)
  rw [h]
  decide

/-! ## The defaulted edit policy (C4) -/

theorem annSection_edit_default (name : String) (args : Yaml)
    (counter : List (String × Int)) (out : AnnOut)
    (h : annSection name args counter = .ok (some out))
    (hexp : out.event.explicitEdit = false) :
    out.event.editVal =
      (if editOverwriteNames.contains name then .s "overwrite" else .b false) := by
  obtain ⟨typ, cnt, blk0, args2, blk3, hname, hcnt, hsplit, hdef, hout⟩ :=
    annSection_some_inv name args counter out h
  subst hout
  simp only at hexp ⊢
  have hlook := annDefaults_edit_default name typ cnt blk0 blk3
    (splitAnnBlock_isDict args blk0 args2 hsplit) hexp hdef
  rw [hlook]
  rfl

/-- C4 (amended): for an annotation-producing method without an explicit
`edit` field, the engine defaults `edit` from the hard-coded list of
main.py:1362-1369; among the annotation-producing method names this means
`"overwrite"` exactly for contour detection and shape/texture feature
computation — skeletonization (`detect_skeleton`) and every other
annotation-producing method default to `False` (the list's `"skeletonize"`
and `"detect_shape"` entries match no annotation-producing name). -/
theorem claim_C4 (name : String) (args : Yaml) (counter : List (String × Int))
    (out : AnnOut) (h : annSection name args counter = .ok (some out))
    (hexp : out.event.explicitEdit = false) :
    out.event.editVal =
      (if editOverwriteNames.contains name then .s "overwrite" else .b false) ∧
    (out.event.editVal = .s "overwrite" ↔
      name ∈ ["detect_contour", "compute_shape_features",
              "compute_texture_features"]) := by
  have hval := annSection_edit_default name args counter out h hexp
  refine ⟨hval, ?_⟩
  obtain ⟨typ, cnt, blk0, args2, blk3, hname, -, -, -, -⟩ :=
    annSection_some_inv name args counter out h
  have hmem := alGet_mem_fst name annotationFunctions typ hname
  rw [hval]
  fin_cases hmem <;> decide

/-- A concrete input for C4: `create_mask` without an explicit `edit` is
defaulted to `False` and is not an overwrite-defaulting name. -/
theorem claim_C4_witness :
    ∃ out, annSection "create_mask" Yaml.nilM counterInit = .ok (some out) ∧
      out.event.explicitEdit = false ∧
      (out.event.editVal =
        (if editOverwriteNames.contains "create_mask" then Yaml.s "overwrite"
         else Yaml.b false) ∧
      (out.event.editVal = .s "overwrite" ↔
        "create_mask" ∈ ["detect_contour", "compute_shape_features",
                         "compute_texture_features"])) := by
  refine ⟨_, rfl, by decide, ?_⟩
  exact claim_C4 "create_mask" Yaml.nilM counterInit _ rfl (by decide)

/-- C4 counterexample: skeletonization is performed by `detect_skeleton`
(type `line`), whose defaulted edit policy comes out `False`, not
`"overwrite"`: the hard-coded list's `"skeletonize"` and `"detect_shape"`
entries are not annotation-producing method names, so they never match. -/
theorem claim_C4_counterexample :
    (∃ res, iterate demoEnv cfgSkeleton (Container.init ()) [] false = .ok res ∧
       res.state.events.map (fun e => (e.typ, e.explicitEdit, e.editVal))
         = [("line", false, .b false)]) ∧
    alGet "detect_skeleton" annotationFunctions = some "line" ∧
    editOverwriteNames.contains "detect_skeleton" = false ∧
    editOverwriteNames.contains "skeletonize" = true ∧
    alGet "skeletonize" annotationFunctions = none ∧
    alGet "detect_shape" annotationFunctions = none := by
  exact ⟨⟨_, rfl, by decide⟩, by decide, by decide, by decide, by decide, by decide⟩

/-! ## Error isolation at the invocation boundary (C5) -/

/-- C5 (amended): in execute mode an exception raised by a method invocation
is caught at the engine boundary unless the debug flag is set — in which
case it propagates and aborts the pass immediately.  A caught exception is
appended, as the bare exception value, to the session log, while the
originating step name, method name and error kind go to the progress output
(main.py:1408-1416: `self.log.append(ex)` versus the printed location line);
and execution continues with the next method.  No caught error is dropped:
the log grows by exactly the exception. -/
theorem claim_C5 :
    (∀ (Img : Type) (sn nm : String) (ex : PyExc) (st : PassState Img),
       handleInvoke false sn nm (Except.error ex) st =
         .ok { st with
               log := st.log ++ [ex]
               printed := st.printed ++
                 [sn ++ "." ++ nm ++ ": " ++ ex.cls ++ " - " ++ ex.msg] }) ∧
    (∀ (Img : Type) (sn nm : String) (ex : PyExc) (st : PassState Img),
       handleInvoke true sn nm (Except.error (α := Container Img) ex) st
         = .error ex) ∧
    (∀ (Img : Type) (sn nm : String) (c2 : Container Img) (st : PassState Img),
       handleInvoke false sn nm (.ok c2) st = .ok { st with container := c2 }) ∧
    (∀ (Img : Type) (env : Env Img) (i : Nat) (sn : String) (j : Nat)
       (m : Yaml) (rest : List Yaml) (st st1 : PassState Img),
       processMethod env i sn j m st = .ok (st1, false) →
         runMethods env i sn j (m :: rest) st =
           runMethods env i sn (j + 1) rest st1) ∧
    (∀ (Img : Type) (env : Env Img) (i : Nat) (sn : String) (j : Nat)
       (m : Yaml) (rest : List Yaml) (st : PassState Img) (e : PyExc),
       processMethod env i sn j m st = .error e →
         runMethods env i sn j (m :: rest) st = .error e) := by
  refine ⟨fun Img sn nm ex st => rfl, fun Img sn nm ex st => rfl,
    fun Img sn nm c2 st => rfl, ?_, ?_⟩
  · intro Img env i sn j m rest st st1 h
    show (match processMethod env i sn j m st with
          | Except.error e => Except.error e
          | Except.ok (st2, brk) =>
            if brk = true then Except.ok (st2, true)
            else runMethods env i sn (j + 1) rest st2) =
        runMethods env i sn (j + 1) rest st1
    rw [h]
    rfl
  · intro Img env i sn j m rest st e h
    show (match processMethod env i sn j m st with
          | Except.error e => Except.error e
          | Except.ok (st2, brk) =>
            if brk = true then Except.ok (st2, true)
            else runMethods env i sn (j + 1) rest st2) =
        Except.error e
    rw [h]

/-- C5 counterexample: two passes that fail in different steps and methods
(`preprocessing.blur` versus `segmentation.morphology`) leave *identical*
session logs holding only the bare exception — the originating step and
method names are not part of the log entry, they are only printed; the
debug flag instead propagates the exception and aborts the pass. -/
theorem claim_C5_counterexample :
    (∃ res1,
       iterate failEnv cfgBlurOnly (Container.init ()) [] false = .ok res1 ∧
       res1.state.log = [⟨"ValueError", "boom"⟩] ∧
       res1.state.invoked.map Prod.fst = ["blur"] ∧
       res1.state.printed.contains "preprocessing.blur: ValueError - boom" = true) ∧
    (∃ res2,
       iterate failEnv cfgMorphOnly (Container.init ()) [] false = .ok res2 ∧
       res2.state.log = [⟨"ValueError", "boom"⟩] ∧
       res2.state.invoked.map Prod.fst = ["morphology"] ∧
       res2.state.printed.contains "preprocessing.blur: ValueError - boom" = false) ∧
    iterate debugEnv cfgBlurOnly (Container.init ()) [] false =
      .error ⟨"ValueError", "boom"⟩ := by
  refine ⟨⟨_, rfl, ?_, ?_, ?_⟩, ⟨_, rfl, ?_, ?_, ?_⟩, rfl⟩ <;> decide

/-! ## Name resolution and the no-skip property (C3) -/

theorem execMethod_invoked {Img : Type} (env : Env Img) (i : Nat) (sn : String)
    (j : Nat) (n1 : String) (args3 annBlock : Yaml) (al2 : Bool)
    (st3 st7 : PassState Img) (brk : Bool) (hex : env.execute = true)
    (h : execMethod env i sn j n1 args3 annBlock al2 st3 = .ok (st7, brk)) :
    ∃ a4, st7.invoked = st3.invoked ++ [(n1, a4)] := by
  unfold execMethod at h
  split at h
  · generalize hargs :
      (if env.feedback = true then args3 else Yaml.mset args3 "passive" (Yaml.b true)) = args4 at h
    dsimp only [] at h
    split at h
    · cases h
    case _ st6 h6 =>
      obtain ⟨-, -, hi6, -, -, -⟩ := handleInvoke_shape _ _ _ _ _ _ h6
      obtain ⟨-, -, hpi, -, -, -⟩ :=
        passiveWrite_shape env.feedback i sn j n1 args4 al2 st3
      refine ⟨args4, ?_⟩
      split at h
      · cases h
        simp only at hi6 ⊢
        rw [hi6, hpi]
      · cases h
        simp only at hi6 ⊢
        rw [hi6, hpi]
  case _ hc => exact absurd hex hc

theorem processMethod_exec_invoked {Img : Type} (env : Env Img) (i : Nat)
    (sn : String) (j : Nat) (m : Yaml) (st st7 : PassState Img) (brk : Bool)
    (hex : env.execute = true)
    (h : processMethod env i sn j m st = .ok (st7, brk)) :
    ∃ nm a4, st7.invoked = st.invoked ++ [(nm, a4)] := by
  unfold processMethod at h
  split at h
  · cases h
  case _ name0 args0 hp =>
    dsimp only [] at h
    have hst1i : (if env.execute = true then
        { st with printed := st.printed ++ [name0] } else st).invoked = st.invoked := by
      split <;> rfl
    generalize hg : (if env.execute = true then
        { st with printed := st.printed ++ [name0] } else st) = st1 at h hst1i
    split at h
    · cases h
    case _ st2 name1 aliased hres =>
      obtain ⟨-, -, -, hi2, -, -⟩ :=
        resolveName_shape env i sn j name0 args0 st1 st2 name1 aliased hres
      split at h
      · cases h
      case _ annRes hann =>
        cases annRes with
        | some out =>
            simp only [applyAnnWrite] at h
            obtain ⟨a4, hi7⟩ := execMethod_invoked env i sn j name1 _ _ _ _ st7 brk hex h
            refine ⟨name1, a4, ?_⟩
            rw [hi7]
            simp only
            rw [hi2, hst1i]
        | none =>
            simp only [applyAnnWrite] at h
            obtain ⟨a4, hi7⟩ := execMethod_invoked env i sn j name1 _ _ _ _ st7 brk hex h
            refine ⟨name1, a4, ?_⟩
            rw [hi7, hi2, hst1i]

/-- C3 (amended): name resolution for one method (main.py:1307-1326).  A
registry hit keeps the name; otherwise, with alias fixing on, a legacy-table
hit substitutes the current name into the updated document while a miss does
nothing silently — the missing-name diagnostic is printed only when alias
fixing is off.  In no case is the method's invocation skipped: in execute
mode every processed method appends exactly one operation invocation. -/
theorem claim_C3 :
    (∀ (Img : Type) (env : Env Img) (i : Nat) (sn : String) (j : Nat)
       (n0 : String) (a0 : Yaml) (st : PassState Img) (reg : String → Bool),
       env.registry sn = some reg → reg n0 = true →
       resolveName env i sn j n0 a0 st =
         .ok ({ st with flattened := alSet sn ((alGet sn st.flattened).getD [] ++ [n0]) st.flattened }, n0, false)) ∧
    (∀ (Img : Type) (env : Env Img) (i : Nat) (sn : String) (j : Nat)
       (n0 : String) (a0 : Yaml) (st : PassState Img) (reg : String → Bool)
       (tbl : List (String × String)) (n2 : String),
       env.registry sn = some reg → reg n0 = false → env.fixNames = true →
       legacyNames sn = some tbl → alGet n0 tbl = some n2 →
       resolveName env i sn j n0 a0 st =
         .ok ({ st with
                configUpdated := setMethodEntry i sn j (.consM n2 a0 .nilM) st.configUpdated
                printed := st.printed ++ ["Fixed method name"] }, n2, true)) ∧
    (∀ (Img : Type) (env : Env Img) (i : Nat) (sn : String) (j : Nat)
       (n0 : String) (a0 : Yaml) (st : PassState Img) (reg : String → Bool)
       (tbl : List (String × String)),
       env.registry sn = some reg → reg n0 = false → env.fixNames = true →
       legacyNames sn = some tbl → alGet n0 tbl = none →
       resolveName env i sn j n0 a0 st = .ok (st, n0, false)) ∧
    (∀ (Img : Type) (env : Env Img) (i : Nat) (sn : String) (j : Nat)
       (n0 : String) (a0 : Yaml) (st : PassState Img) (reg : String → Bool),
       env.registry sn = some reg → reg n0 = false → env.fixNames = false →
       resolveName env i sn j n0 a0 st =
         .ok ({ st with printed := st.printed ++ ["phenopype." ++ sn ++ " has no function called " ++ n0 ++ " - will attempt to look for similarly named functions - fix the config file!"] }, n0, false)) ∧
    (∀ (Img : Type) (env : Env Img) (i : Nat) (sn : String) (j : Nat)
       (m : Yaml) (st st7 : PassState Img) (brk : Bool), env.execute = true →
       processMethod env i sn j m st = .ok (st7, brk) →
       ∃ nm a4, st7.invoked = st.invoked ++ [(nm, a4)]) := by
  refine ⟨?_, ?_, ?_, ?_, ?_⟩
  · intro Img env i sn j n0 a0 st reg hreg hn0
    simp only [resolveName, hreg, hn0, if_true]
  · intro Img env i sn j n0 a0 st reg tbl n2 hreg hn0 hfix htbl halias
    simp only [resolveName, hreg, hn0, hfix, htbl, halias, Bool.false_eq_true,
      if_false, if_true]
  · intro Img env i sn j n0 a0 st reg tbl hreg hn0 hfix htbl halias
    simp only [resolveName, hreg, hn0, hfix, htbl, halias, Bool.false_eq_true,
      if_false, if_true]
  · intro Img env i sn j n0 a0 st reg hreg hn0 hfix
    simp only [resolveName, hreg, hn0, hfix, Bool.false_eq_true, if_false]
  · intro Img env i sn j m st st7 brk hex h
    exact processMethod_exec_invoked env i sn j m st st7 brk hex h

/-- C3 counterexample: a name missing from both the registry and the legacy
table.  With alias fixing on (the `Pype` default) no diagnostic is printed;
with alias fixing off the diagnostic is printed — and in both runs the
method is still invoked, not skipped. -/
theorem claim_C3_counterexample :
    (∃ res, iterate demoEnv cfgUnknownName (Container.init ()) [] false = .ok res ∧
       res.state.invoked.map Prod.fst = ["mystery_fun"] ∧
       res.state.printed = ["PREPROCESSING", "mystery_fun"] ∧
       res.persisted = false) ∧
    (∃ res2, iterate fixOffEnv cfgUnknownName (Container.init ()) [] false = .ok res2 ∧
       res2.state.invoked.map Prod.fst = ["mystery_fun"] ∧
       res2.state.printed = ["PREPROCESSING", "mystery_fun",
         "phenopype.preprocessing has no function called mystery_fun - will attempt to look for similarly named functions - fix the config file!"]) := by
  refine ⟨⟨_, rfl, ?_, ?_, ?_⟩, ⟨_, rfl, ?_, ?_⟩⟩ <;> decide

/-! ## The restart signal ends the pass (C7) -/

theorem execMethod_stop {Img : Type} (env : Env Img) (i : Nat) (sn : String)
    (j : Nat) (n1 : String) (args3 annBlock : Yaml) (al2 : Bool)
    (st3 st7 : PassState Img) (brk : Bool) (nm : String)
    (hR : ∀ a ab2 ctr c, ((env.invoke nm a ab2 ctr c).restartAfter) = some true)
    (h : execMethod env i sn j n1 args3 annBlock al2 st3 = .ok (st7, brk)) :
    (st7.invoked = st3.invoked ∨
      ∃ a4, st7.invoked = st3.invoked ++ [(n1, a4)] ∧ (n1 = nm → brk = true)) ∧
    (brk = true → st7.pypeRestart = true) := by
  unfold execMethod at h
  split at h
  case _ hex =>
    generalize hargs :
      (if env.feedback = true then args3 else Yaml.mset args3 "passive" (Yaml.b true)) = args4 at h
    dsimp only [] at h
    split at h
    · cases h
    case _ st6 h6 =>
      obtain ⟨-, -, hi6, -, -, -⟩ := handleInvoke_shape _ _ _ _ _ _ h6
      obtain ⟨-, -, hpi, -, -, -⟩ :=
        passiveWrite_shape env.feedback i sn j n1 args4 al2 st3
      split at h
      case _ hcond =>
        cases h
        refine ⟨Or.inr ⟨args4, ?_, fun _ => rfl⟩, fun _ => ?_⟩
        · simp only at hi6 ⊢
          rw [hi6, hpi]
        · simp only
          exact hcond
      case _ hcond =>
        cases h
        refine ⟨Or.inr ⟨args4, ?_, ?_⟩, fun hfalse => absurd hfalse Bool.false_ne_true⟩
        · simp only at hi6 ⊢
          rw [hi6, hpi]
        · intro hnm
          subst hnm
          exact absurd (by rw [hR]; rfl) hcond
  · cases h
    exact ⟨Or.inl rfl, fun hfalse => absurd hfalse Bool.false_ne_true⟩

theorem processMethod_stop {Img : Type} (env : Env Img) (i : Nat) (sn : String)
    (j : Nat) (m : Yaml) (st st7 : PassState Img) (brk : Bool) (nm : String)
    (hR : ∀ a ab2 ctr c, ((env.invoke nm a ab2 ctr c).restartAfter) = some true)
    (h : processMethod env i sn j m st = .ok (st7, brk))
    (hP : nm ∉ st.invoked.map Prod.fst) :
    (brk = true → st7.pypeRestart = true) ∧
    (nm ∉ st7.invoked.map Prod.fst ∨
      (st7.invoked.map Prod.fst = st.invoked.map Prod.fst ++ [nm] ∧ brk = true)) := by
  unfold processMethod at h
  split at h
  · cases h
  case _ name0 args0 hp =>
    dsimp only [] at h
    have hst1i : (if env.execute = true then
        { st with printed := st.printed ++ [name0] } else st).invoked = st.invoked := by
      split <;> rfl
    generalize hg : (if env.execute = true then
        { st with printed := st.printed ++ [name0] } else st) = st1 at h hst1i
    split at h
    · cases h
    case _ st2 name1 aliased hres =>
      obtain ⟨-, -, -, hi2, -, -⟩ :=
        resolveName_shape env i sn j name0 args0 st1 st2 name1 aliased hres
      split at h
      · cases h
      case _ annRes hann =>
        have hstep : ∀ (st3 : PassState Img) (a3 ab : Yaml) (al2 : Bool),
            st3.invoked = st.invoked →
            execMethod env i sn j name1 a3 ab al2 st3 = .ok (st7, brk) →
            (brk = true → st7.pypeRestart = true) ∧
            (nm ∉ st7.invoked.map Prod.fst ∨
              (st7.invoked.map Prod.fst = st.invoked.map Prod.fst ++ [nm] ∧
                brk = true)) := by
          intro st3 a3 ab al2 hst3 hex
          obtain ⟨hinv, hbr⟩ :=
            execMethod_stop env i sn j name1 a3 ab al2 st3 st7 brk nm hR hex
          refine ⟨hbr, ?_⟩
          rcases hinv with hsame | ⟨a4, happ, hnmbrk⟩
          · exact Or.inl (by rw [hsame, hst3]; exact hP)
          · by_cases hn : name1 = nm
            · subst hn
              exact Or.inr ⟨by rw [happ, hst3]; simp, hnmbrk rfl⟩
            · refine Or.inl ?_
              rw [happ, hst3]
              simp only [List.map_append, List.map_cons, List.map_nil,
                List.mem_append, List.mem_cons, List.not_mem_nil]
              rintro (hmem | hmem)
              · exact hP hmem
              · rcases hmem with heq | hfalse
                · exact hn heq.symm
                · exact hfalse
        cases annRes with
        | some out =>
            simp only [applyAnnWrite] at h
            refine hstep _ _ _ _ ?_ h
            simp only
            rw [hi2, hst1i]
        | none =>
            simp only [applyAnnWrite] at h
            exact hstep _ _ _ _ (by rw [hi2, hst1i]) h

theorem visAutoselect_invoked {Img : Type} (env : Env Img) (sn : String)
    (ml : Yaml) (st st3 : PassState Img)
    (h : visAutoselect env sn ml st = .ok st3) :
    st3.invoked = st.invoked ∨
      st3.invoked = st.invoked ++ [("select_canvas", Yaml.nilM)] := by
  unfold visAutoselect at h
  split at h
  · split at h
    · cases h
    · split at h
      · cases h
      · split at h
        · dsimp only [] at h
          split at h
          · cases h
            exact Or.inr rfl
          · cases h
        · cases h
          exact Or.inl rfl
  · cases h
    exact Or.inl rfl

theorem stepHeader_invoked {Img : Type} (ex : Bool) (sn : String)
    (st1 : PassState Img) :
    (stepHeader ex sn st1).invoked = st1.invoked := by
  unfold stepHeader
  split
  · rfl
  · rfl

theorem runMethods_stop {Img : Type} (env : Env Img) (i : Nat) (sn : String)
    (ms : List Yaml) (j : Nat) (st st1 : PassState Img) (brk : Bool)
    (nm : String)
    (hR : ∀ a ab2 ctr c, ((env.invoke nm a ab2 ctr c).restartAfter) = some true)
    (h : runMethods env i sn j ms st = .ok (st1, brk))
    (hP : nm ∉ st.invoked.map Prod.fst) :
    (brk = true → st1.pypeRestart = true) ∧
    (nm ∉ st1.invoked.map Prod.fst ∨
      (∃ pre, st1.invoked.map Prod.fst = pre ++ [nm] ∧ brk = true ∧
        st1.pypeRestart = true)) := by
  induction ms generalizing j st with
  | nil =>
      unfold runMethods at h
      cases h
      exact ⟨fun hfalse => absurd hfalse Bool.false_ne_true, Or.inl hP⟩
  | cons m rest ih =>
      unfold runMethods at h
      split at h
      · cases h
      case _ stx brk2 hpm =>
        obtain ⟨hbr, hdis⟩ := processMethod_stop env i sn j m st stx brk2 nm hR hpm hP
        split at h
        case _ hbrk2 =>
          cases h
          rcases hdis with hout | ⟨happ, -⟩
          · exact ⟨fun _ => hbr hbrk2, Or.inl hout⟩
          · exact ⟨fun _ => hbr hbrk2,
              Or.inr ⟨st.invoked.map Prod.fst, happ, rfl, hbr hbrk2⟩⟩
        case _ hbrk2 =>
          rcases hdis with hout | ⟨-, habs⟩
          · exact ih (j + 1) stx h hout
          · exact absurd habs hbrk2

theorem runStep_stop {Img : Type} (env : Env Img) (i : Nat) (step : Yaml)
    (st st1 : PassState Img) (brk : Bool) (nm : String)
    (hR : ∀ a ab2 ctr c, ((env.invoke nm a ab2 ctr c).restartAfter) = some true)
    (hsel : nm ≠ "select_canvas")
    (h : runStep env i step st = .ok (st1, brk))
    (hP : nm ∉ st.invoked.map Prod.fst) :
    (brk = true → st1.pypeRestart = true) ∧
    (nm ∉ st1.invoked.map Prod.fst ∨
      (∃ pre, st1.invoked.map Prod.fst = pre ++ [nm] ∧ brk = true ∧
        st1.pypeRestart = true)) := by
  unfold runStep at h
  split at h
  · cases h
    exact ⟨fun hfalse => absurd hfalse Bool.false_ne_true, Or.inl hP⟩
  · cases h
  case _ sn ml rest =>
    dsimp only [] at h
    split at h
    · cases h
      exact ⟨fun hfalse => absurd hfalse Bool.false_ne_true, Or.inl hP⟩
    · split at h
      · cases h
      case _ st3 hvis =>
        have hP3 : nm ∉ st3.invoked.map Prod.fst := by
          have hhi := stepHeader_invoked env.execute sn
            { st with flattened := alSet sn [] st.flattened }
          rcases visAutoselect_invoked env sn ml _ st3 hvis with hi3 | hi3
          · rw [hi3, hhi]
            exact hP
          · rw [hi3, hhi]
            simp only [List.map_append, List.map_cons, List.map_nil,
              List.mem_append, List.mem_cons, List.not_mem_nil]
            rintro (hmem | heq | hfalse)
            · exact hP hmem
            · exact hsel heq
            · exact hfalse
        split at h
        · cases h
        case _ items hitems =>
          exact runMethods_stop env i sn items 0 st3 st1 brk nm hR h hP3
  · cases h

theorem runSteps_stop {Img : Type} (env : Env Img) (steps : List Yaml)
    (i : Nat) (st st1 : PassState Img) (brk : Bool) (nm : String)
    (hR : ∀ a ab2 ctr c, ((env.invoke nm a ab2 ctr c).restartAfter) = some true)
    (hsel : nm ≠ "select_canvas")
    (h : runSteps env i steps st = .ok (st1, brk))
    (hP : nm ∉ st.invoked.map Prod.fst) :
    (brk = true → st1.pypeRestart = true) ∧
    (nm ∉ st1.invoked.map Prod.fst ∨
      (∃ pre, st1.invoked.map Prod.fst = pre ++ [nm] ∧ brk = true ∧
        st1.pypeRestart = true)) := by
  induction steps generalizing i st with
  | nil =>
      unfold runSteps at h
      cases h
      exact ⟨fun hfalse => absurd hfalse Bool.false_ne_true, Or.inl hP⟩
  | cons sp rest ih =>
      unfold runSteps at h
      split at h
      · cases h
      case _ stx brk2 hstep =>
        obtain ⟨hbr, hdis⟩ := runStep_stop env i sp st stx brk2 nm hR hsel hstep hP
        split at h
        case _ hbrk2 =>
          cases h
          rcases hdis with hout | ⟨pre, happ, -, hrst⟩
          · exact ⟨fun _ => hbr hbrk2, Or.inl hout⟩
          · exact ⟨fun _ => hbr hbrk2, Or.inr ⟨pre, happ, rfl, hrst⟩⟩
        case _ hbrk2 =>
          rcases hdis with hout | ⟨-, -, habs, -⟩
          · exact ih (i + 1) stx h hout
          · exact absurd habs hbrk2

/-- C7 (amended): when an operation raises the process-wide restart signal,
the pass terminates immediately after that invocation — it is the last one,
no remaining method runs — and the early termination is the `earlyRestart`
exit, distinct from normal completion, with no document persisting.  The
engine does *not* clear the flag at the end of the invocation: it is still
set when the pass returns, and it is the Pype loop that clears it at the top
of the next cycle (main.py:1047-1050, `pypeLoopCycle`). -/
theorem claim_C7 {Img : Type} (env : Env Img) (cfg : Yaml)
    (c0 : Container Img) (log0 : List PyExc) (r0 : Bool)
    (res : IterResult Img) (nm : String)
    (h : iterate env cfg c0 log0 r0 = .ok res)
    (hsel : nm ≠ "select_canvas")
    (hR : ∀ a ab2 ctr c, ((env.invoke nm a ab2 ctr c).restartAfter) = some true) :
    (nm ∈ res.state.invoked.map Prod.fst →
       ∃ pre, res.state.invoked.map Prod.fst = pre ++ [nm] ∧
         res.earlyRestart = true ∧ res.persisted = false ∧
         res.state.pypeRestart = true) ∧
    pypeLoopCycle env cfg c0 log0 = iterate env cfg c0 log0 false := by
  refine ⟨?_, rfl⟩
  intro hmem
  unfold iterate iterateFrom at h
  split at h
  · cases h
  · split at h
    · cases h
    case _ steps hsteps =>
      dsimp only [] at h
      split at h
      · cases h
      case _ stx brk2 hrun =>
        have hstop := runSteps_stop env steps 0 _ stx brk2 nm hR hsel hrun
          (by simp)
        split at h
        case _ hbrk2 =>
          cases h
          rcases hstop.2 with hout | ⟨pre, happ, -, hrst⟩
          · exact absurd hmem hout
          · exact ⟨pre, happ, rfl, rfl, hrst⟩
        case _ hbrk2 =>
          split at h
          all_goals
            cases h
            rcases hstop.2 with hout | ⟨-, -, habs, -⟩
            · exact absurd hmem hout
            · exact absurd habs hbrk2

/-- C7 counterexample: a restart raised by `blur` ends the pass after that
invocation (`detect_mask` never runs), but the restart flag is *not* cleared
by the engine at the end of the invocation — it is still raised when the
pass returns (the Pype loop clears it at the top of the next cycle). -/
theorem claim_C7_counterexample :
    ∃ res, iterate restartEnv cfgRestartDemo (Container.init ()) [] false = .ok res ∧
      res.state.invoked.map Prod.fst = ["create_mask", "blur"] ∧
      res.earlyRestart = true ∧ res.persisted = false ∧
      res.state.pypeRestart = true ∧
      res.state.printed.contains "BREAK" = true := by
  refine ⟨_, rfl, ?_, ?_, ?_, ?_, ?_⟩ <;> decide

/-- A concrete restarting run for C7: `blur` raises the restart signal and is
the last invocation of the pass. -/
theorem claim_C7_witness :
    ∃ res, iterate restartEnv cfgRestartDemo (Container.init ()) [] false = .ok res ∧
      "blur" ∈ res.state.invoked.map Prod.fst ∧
      (∃ pre, res.state.invoked.map Prod.fst = pre ++ ["blur"] ∧
        res.earlyRestart = true ∧ res.persisted = false ∧
        res.state.pypeRestart = true) := by
  refine ⟨_, rfl, by decide, ?_⟩
  exact (claim_C7 restartEnv cfgRestartDemo (Container.init ()) [] false _ "blur"
    rfl (by decide) (fun a ab2 ctr c => rfl)).1 (by decide)

/-! ## Workspace reset (C8) -/

/-- C8 (amended): `Container.reset` restores the working image from the
immutable original, clears the binary and canvas buffers (and the gray
buffer), and leaves the annotation store's contents identical; and a pass
starts by resetting the container — except in dry-run mode, whose passes
run on the container as-is (main.py:1238-1240), so annotations persist
across passes. -/
theorem claim_C8 :
    (∀ (Img : Type) (c : Container Img),
       (c.reset).annotations = c.annotations ∧
       (c.reset).image = c.image_copy ∧
       (c.reset).image_copy = c.image_copy ∧
       (c.reset).image_bin = none ∧
       (c.reset).image_gray = none ∧
       (c.reset).canvas = none) ∧
    (∀ (Img : Type) (env : Env Img) (cfg : Yaml) (c0 : Container Img)
       (log0 : List PyExc) (r0 : Bool), env.dryRun = false →
       iterate env cfg c0 log0 r0 = iterateFrom env cfg c0.reset log0 r0) := by
  refine ⟨fun Img c => ⟨rfl, rfl, rfl, rfl, rfl, rfl⟩, ?_⟩
  intro Img env cfg c0 log0 r0 hdry
  unfold iterate
  rw [hdry]
  rfl

/-- C8 counterexample to "invoked once at the start of *every* loop
iteration": in dry-run mode the pass does not reset the workspace — the
diverged working image and stale binary buffer survive — while the same
pass without dry-run restores the working image from the original, clears
the binary buffer and leaves the annotation store identical. -/
theorem claim_C8_counterexample :
    (∃ res, iterate natEnvDry cfgBlurOnly dirtyContainer [] false = .ok res ∧
       res.state.container.image = 7 ∧
       res.state.container.image_bin = some 9 ∧
       dirtyContainer.image_copy = 5) ∧
    (∃ res2, iterate natEnv cfgBlurOnly dirtyContainer [] false = .ok res2 ∧
       res2.state.container.image = 5 ∧
       res2.state.container.image_bin = none ∧
       res2.state.container.canvas = none ∧
       res2.state.container.annotations = dirtyContainer.annotations) := by
  refine ⟨⟨_, rfl, ?_, ?_, ?_⟩, ⟨_, rfl, ?_, ?_, ?_, ?_⟩⟩ <;> decide

/-! ## The immutable edit policy (C6) and the threshold scenario (C9) -/

/-- C6: for an annotation stored under a given type and id whose edit policy
is `false`/immutable, re-invoking the producing method leaves the stored
payload unchanged by the engine itself: the store is returned as-is and the
existing annotation is handed to the operation as read-only context. -/
theorem claim_C6 (store : Store) (typ idv : String)
    (produce : Option Yaml → Yaml) (payload : Yaml)
    (hex : alGet idv (storeGroup typ store) = some payload) :
    applyEditPolicy store typ idv .immutable produce = (store, some payload) := by
  unfold applyEditPolicy
  dsimp only []
  rw [hex]

/-- A concrete input for C6: a stored mask `"a"` with the immutable policy
survives a re-invocation whose operation would produce a different payload,
and that operation receives the stored payload as context. -/
theorem claim_C6_witness :
    alGet "a" (storeGroup "masks" (storeSet "masks" "a" (.s "m") initStore))
      = some (.s "m") ∧
    applyEditPolicy (storeSet "masks" "a" (.s "m") initStore) "masks" "a"
        .immutable (fun _ => .s "changed")
      = (storeSet "masks" "a" (.s "m") initStore, some (.s "m")) :=
  ⟨by decide, claim_C6 _ "masks" "a" _ (.s "m") (by decide)⟩

/-- C9: the document `{segmentation: [{threshold: {method: otsu}}]}` run as
the first pass on a fresh session completes with the working image copied
into the binary buffer, exactly zero session-log entries, an updated
document equal (Python `==`) to the input, and no rewrite persisted. -/
theorem claim_C9 {Img : Type} (ops : CoreOps Img) (img : Img) :
    ∃ res, iterate (stdEnv ops) cfgThresholdOtsu (Container.init img) [] false
        = .ok res ∧
      res.state.log = [] ∧
      res.state.container.image_bin = some res.state.container.image ∧
      res.state.invoked.map Prod.fst = ["threshold"] ∧
      Yaml.pyEq res.state.configUpdated cfgThresholdOtsu = true ∧
      res.persisted = false ∧
      res.earlyRestart = false :=
  ⟨_, rfl, rfl, rfl, rfl, rfl, rfl, rfl⟩

/-! ## Canonical documents under the engine (C2) -/

theorem lToList_ofL (l : List Yaml) : Yaml.lToList (Yaml.ofL l) = l := by
  induction l with
  | nil => rfl
  | cons x xs ih => simp [Yaml.ofL, Yaml.lToList, ih]

theorem pyIter_ofL (l : List Yaml) : pyIter (Yaml.ofL l) = .ok l := by
  cases l with
  | nil => rfl
  | cons x xs => simp [Yaml.ofL, pyIter, lToList_ofL]

theorem lmodify_ofL_set (ms : List Yaml) (j : Nat) (E : Yaml) :
    Yaml.lmodify j (fun _ => E) (Yaml.ofL ms) = Yaml.ofL (ms.set j E) := by
  induction ms generalizing j with
  | nil => cases j <;> rfl
  | cons x xs ih =>
    cases j with
    | zero => rfl
    | succ j2 =>
      show Yaml.consL x (Yaml.lmodify j2 (fun _ => E) (Yaml.ofL xs)) =
        Yaml.ofL (x :: xs.set j2 E)
      rw [ih]
      rfl

theorem lmodify_ofL_append (pre : List Yaml) (f : Yaml → Yaml) (x : Yaml)
    (post : List Yaml) :
    Yaml.lmodify pre.length f (Yaml.ofL (pre ++ x :: post)) =
      Yaml.ofL (pre ++ f x :: post) := by
  induction pre with
  | nil => rfl
  | cons hd tl ih =>
    show Yaml.consL hd (Yaml.lmodify tl.length f (Yaml.ofL (tl ++ x :: post))) =
      Yaml.ofL (hd :: (tl ++ f x :: post))
    rw [ih]
    rfl

theorem mmodify_single (k : String) (f : Yaml → Yaml) (v tl : Yaml) :
    Yaml.mmodify k f (Yaml.consM k v tl) = Yaml.consM k (f v) tl := by
  simp [Yaml.mmodify]

theorem setMethodEntry_mkCfg (pre post : List (String × List Yaml))
    (sn : String) (cur : List Yaml) (j : Nat) (E : Yaml) :
    setMethodEntry pre.length sn j E (mkCfg (pre ++ (sn, cur) :: post)) =
      mkCfg (pre ++ (sn, cur.set j E) :: post) := by
  unfold setMethodEntry mkCfg
  rw [mmodify_single]
  congr 1
  unfold mkSteps
  rw [List.map_append, List.map_cons, List.map_append, List.map_cons]
  rw [show pre.length = (List.map (fun sp => mkStep sp.1 sp.2) pre).length from
    (List.length_map _ _).symm]
  rw [lmodify_ofL_append]
  congr 2
  unfold mkStep
  rw [mmodify_single, lmodify_ofL_set]

theorem forall2_set {α β : Type} (R : α → β → Prop) (l1 : List α) (l2 : List β)
    (h : List.Forall₂ R l1 l2) (j : Nat) (a : α) (b : β)
    (hb : l2.get? j = some b) (hab : R a b) :
    List.Forall₂ R (l1.set j a) l2 := by
  induction h generalizing j with
  | nil => simp at hb
  | cons hR hrest ih =>
    cases j with
    | zero =>
      simp only [List.get?] at hb
      cases hb
      exact List.Forall₂.cons hab hrest
    | succ j2 =>
      simp only [List.get?] at hb
      exact List.Forall₂.cons hR (ih j2 hb)

theorem pyEq_ofL_forall2 (l1 l2 : List Yaml)
    (h : List.Forall₂ (fun a b => Yaml.pyEq a b = true) l1 l2) :
    Yaml.pyEq (Yaml.ofL l1) (Yaml.ofL l2) = true := by
  induction h with
  | nil => rfl
  | cons hR hrest ih =>
    show (Yaml.pyEq _ _ && Yaml.pyEq (Yaml.ofL _) (Yaml.ofL _)) = true
    rw [hR, ih]
    rfl

theorem pyEq_singleM (k : String) (v w : Yaml) (h : Yaml.pyEq v w = true) :
    Yaml.pyEq (.consM k v .nilM) (.consM k w .nilM) = true := by
  rw [show Yaml.pyEq (.consM k v .nilM) (.consM k w .nilM) =
    (match Yaml.mlookup k (.consM k w .nilM) with
     | some z => Yaml.pyEq v z && Yaml.pyEq .nilM (Yaml.mdel k (.consM k w .nilM))
     | none => false) from rfl]
  rw [Yaml.mlookup_consM, if_pos rfl]
  simp only
  rw [Yaml.mdel_consM, if_pos rfl]
  rw [h]
  rfl

theorem NormMethod_pyEq_self (reg : String → Bool) (m : Yaml)
    (h : NormMethod reg m) : Yaml.pyEq m m = true := by
  rcases h with ⟨name, rfl, -, -⟩ | ⟨name, args, rfl, -, hwf, -⟩
  · simp [Yaml.pyEq]
  · have hwfm : Yaml.wf (.consM name args .nilM) = true := by
      show (!(Yaml.mhas name .nilM) && Yaml.wf args && Yaml.wf .nilM) = true
      rw [hwf]
      rfl
    exact Yaml.pyEq_refl _ hwfm

theorem pyEq_mkCfg (SS1 SS2 : List (String × List Yaml))
    (h : List.Forall₂ StepRel SS1 SS2) :
    Yaml.pyEq (mkCfg SS1) (mkCfg SS2) = true := by
  apply pyEq_singleM
  apply pyEq_ofL_forall2
  unfold mkSteps
  induction h with
  | nil => exact List.Forall₂.nil
  | cons hR hrest ih =>
    refine List.Forall₂.cons ?_ ih
    obtain ⟨hname, hms⟩ := hR
    unfold mkStep
    dsimp only
    rw [hname]
    exact pyEq_singleM _ _ _ (pyEq_ofL_forall2 _ _ hms)

theorem resolveName_hit {Img : Type} (env : Env Img) (i : Nat) (sn : String)
    (j : Nat) (n0 : String) (a0 : Yaml) (st : PassState Img)
    (reg : String → Bool) (hreg : env.registry sn = some reg)
    (hn0 : reg n0 = true) :
    resolveName env i sn j n0 a0 st =
      .ok ({ st with flattened := alSet sn ((alGet sn st.flattened).getD [] ++ [n0]) st.flattened }, n0, false) := by
  simp only [resolveName, hreg, hn0, if_true]

theorem passiveWrite_notAliased {Img : Type} (fb : Bool) (i : Nat)
    (sn : String) (j : Nat) (n1 : String) (a4 : Yaml) (st3 : PassState Img) :
    passiveWrite fb i sn j n1 a4 false st3 = st3 := by
  unfold passiveWrite
  simp

theorem execMethod_config {Img : Type} (env : Env Img) (i : Nat) (sn : String)
    (j : Nat) (n1 : String) (args3 annBlock : Yaml)
    (st3 st7 : PassState Img) (brk : Bool)
    (h : execMethod env i sn j n1 args3 annBlock false st3 = .ok (st7, brk)) :
    st7.configUpdated = st3.configUpdated := by
  unfold execMethod at h
  split at h
  · generalize hargs :
      (if env.feedback = true then args3 else Yaml.mset args3 "passive" (Yaml.b true)) = args4 at h
    dsimp only [] at h
    split at h
    · cases h
    case _ st6 h6 =>
      rw [passiveWrite_notAliased] at h6
      obtain ⟨-, -, -, hc6, -, -⟩ := handleInvoke_shape _ _ _ _ _ _ h6
      split at h
      · cases h
        simpa using hc6
      · cases h
        simpa using hc6
  · cases h
    rfl

theorem parseMethod_consM (k : String) (v tl : Yaml) (p : String × Yaml)
    (h : parseMethod (.consM k v tl) = .ok p) :
    p.1 = k ∧ ((v = .null ∧ p.2 = .nilM) ∨ (v.isDict = true ∧ p.2 = v)) := by
  simp only [parseMethod] at h
  split at h
  · cases h
    exact ⟨rfl, Or.inl ⟨rfl, rfl⟩⟩
  · split at h
    case _ hdict =>
      cases h
      exact ⟨rfl, Or.inr ⟨hdict, rfl⟩⟩
    · cases h

/-- A normalized method leaves the updated configuration unchanged or
rewrites its own entry with a Python-equal value. -/
theorem processMethod_norm {Img : Type} (env : Env Img) (i : Nat)
    (sn : String) (j : Nat) (m : Yaml) (st st7 : PassState Img) (brk : Bool)
    (reg : String → Bool) (hreg : env.registry sn = some reg)
    (hm : NormMethod reg m)
    (h : processMethod env i sn j m st = .ok (st7, brk)) :
    st7.configUpdated = st.configUpdated ∨
      ∃ E, st7.configUpdated = setMethodEntry i sn j E st.configUpdated ∧
        Yaml.pyEq E m = true := by
  unfold processMethod at h
  split at h
  · cases h
  case _ name0 args0 hp =>
    dsimp only [] at h
    have hst1c : (if env.execute = true then
        { st with printed := st.printed ++ [name0] } else st).configUpdated
        = st.configUpdated := by
      split <;> rfl
    generalize hg : (if env.execute = true then
        { st with printed := st.printed ++ [name0] } else st) = st1 at h hst1c
    have hrn : reg name0 = true := by
      rcases hm with ⟨name, hmeq, hr, -⟩ | ⟨name, args, hmeq, hr, -, -⟩
      · rw [hmeq] at hp
        rw [show parseMethod (Yaml.s name) = Except.ok (name, Yaml.nilM) from rfl,
          Except.ok.injEq, Prod.mk.injEq] at hp
        rw [← hp.1]
        exact hr
      · rw [hmeq] at hp
        obtain ⟨h1, -⟩ := parseMethod_consM name args .nilM _ hp
        simp only at h1
        rw [h1]
        exact hr
    split at h
    · cases h
    case _ st2 name1 aliased hres =>
      rw [resolveName_hit env i sn j name0 args0 st1 reg hreg hrn,
        Except.ok.injEq, Prod.mk.injEq, Prod.mk.injEq] at hres
      obtain ⟨hst2, hname1, halias⟩ := hres
      subst hname1
      subst halias
      have hc2 : st2.configUpdated = st.configUpdated := by
        rw [← hst2]
        exact hst1c
      split at h
      · cases h
      case _ annRes hann =>
        rcases hm with ⟨name, hmeq, -, hnoann⟩ | ⟨name, args, hmeq, -, hwf, hcases⟩
        · -- bare-string method, not annotation-producing
          rw [hmeq] at hp
          rw [show parseMethod (Yaml.s name) = Except.ok (name, Yaml.nilM) from rfl,
            Except.ok.injEq, Prod.mk.injEq] at hp
          obtain ⟨hn, -⟩ := hp
          rw [← hn] at hann
          unfold annSection at hann
          rw [hnoann] at hann
          have hann2 : (Except.ok none : Except PyExc (Option AnnOut)) = .ok annRes := hann
          injection hann2 with h3
          subst h3
          simp only [applyAnnWrite] at h
          exact Or.inl ((execMethod_config _ _ _ _ _ _ _ _ _ _ h).trans hc2)
        · -- single-key mapping method
          rw [hmeq] at hp
          obtain ⟨h1, hargs0⟩ := parseMethod_consM name args .nilM _ hp
          simp only at h1 hargs0
          subst h1
          rcases hcases with ⟨hnoann, -⟩ | ⟨typ, blk, hty, hdict, hlook, hbd, hbty, hbid, hbed⟩
          · -- not annotation-producing
            unfold annSection at hann
            rw [hnoann] at hann
            have hann2 : (Except.ok none : Except PyExc (Option AnnOut)) = .ok annRes := hann
            injection hann2 with h3
            subst h3
            simp only [applyAnnWrite] at h
            exact Or.inl ((execMethod_config _ _ _ _ _ _ _ _ _ _ h).trans hc2)
          · -- annotation-producing with a fully explicit ANNOTATION block
            have hargs : args0 = args := by
              rcases hargs0 with ⟨hnull, -⟩ | ⟨-, hv⟩
              · rw [hnull] at hlook
                simp [Yaml.mlookup] at hlook
              · exact hv
            subst hargs
            unfold annSection at hann
            rw [hty] at hann
            dsimp only [] at hann
            split at hann
            · cases hann
            case _ cnt hcnt =>
              split at hann
              · cases hann
              case _ blk0 args2 hsplit =>
                unfold splitAnnBlock at hsplit
                rw [hlook] at hsplit
                dsimp only [] at hsplit
                rw [if_pos hbd] at hsplit
                rw [Except.ok.injEq, Prod.mk.injEq] at hsplit
                obtain ⟨hb0, ha2⟩ := hsplit
                subst hb0
                subst ha2
                split at hann
                · cases hann
                case _ blk3 hdef =>
                  rw [annDefaults_explicit_all name0 typ cnt blk hbty hbid hbed,
                    Except.ok.injEq] at hdef
                  subst hdef
                  have hann2 : (Except.ok
                      (some { counter := alSet typ (cnt + 1) st2.counter
                              methodArgs := args0.mdel "ANNOTATION"
                              annBlock := blk
                              event :=
                                { typ := typ
                                  explicitId := blk.mhas "id"
                                  idVal := (blk.mlookup "id").getD .null
                                  explicitEdit := blk.mhas "edit"
                                  editVal := (blk.mlookup "edit").getD .null } })
                      : Except PyExc (Option AnnOut)) = .ok annRes := hann
                  injection hann2 with h3
                  subst h3
                  simp only [applyAnnWrite] at h
                  have h7 := execMethod_config _ _ _ _ _ _ _ _ _ _ h
                  rw [hmeq]
                  refine Or.inr ⟨Yaml.consM name0 (Yaml.consM "ANNOTATION" blk (args0.mdel "ANNOTATION")) Yaml.nilM, ?_, ?_⟩
                  · rw [h7]
                    dsimp only
                    rw [hc2]
                  · exact pyEq_singleM name0 _ args0
                      (Yaml.pyEq_front args0 blk "ANNOTATION" hwf hlook)

theorem runMethods_norm {Img : Type} (env : Env Img) (reg : String → Bool)
    (sn : String) (ms : List Yaml)
    (hnorm : ∀ m ∈ ms, NormMethod reg m)
    (hreg : env.registry sn = some reg)
    (pre post : List (String × List Yaml))
    (suffix : List Yaml) (j : Nat) (cur : List Yaml)
    (st st1 : PassState Img) (brk : Bool)
    (hsuf : suffix = ms.drop j) (hlen : cur.length = ms.length)
    (hfa : MethodsRel cur ms)
    (hcfg : st.configUpdated = mkCfg (pre ++ (sn, cur) :: post))
    (h : runMethods env pre.length sn j suffix st = .ok (st1, brk)) :
    ∃ cur2, st1.configUpdated = mkCfg (pre ++ (sn, cur2) :: post) ∧
      cur2.length = ms.length ∧ MethodsRel cur2 ms := by
  induction suffix generalizing j cur st with
  | nil =>
      unfold runMethods at h
      cases h
      exact ⟨cur, hcfg, hlen, hfa⟩
  | cons m rest ih =>
      unfold runMethods at h
      split at h
      · cases h
      case _ stx brk2 hpm =>
        have hmj : ms.get? j = some m := by
          rw [List.get?_eq_getElem?, ← List.head?_drop, ← hsuf]
          rfl
        have hsuf2 : rest = ms.drop (j + 1) := by
          rw [← List.tail_drop, ← hsuf]
          rfl
        have hmem : m ∈ ms := List.get?_mem hmj
        rcases processMethod_norm env pre.length sn j m st stx brk2 reg hreg
            (hnorm m hmem) hpm with hsame | ⟨E, hset, hpe⟩
        · split at h
          · cases h
            exact ⟨cur, hsame.trans hcfg, hlen, hfa⟩
          · exact ih (j + 1) cur stx hsuf2 hlen hfa (hsame.trans hcfg) h
        · have hset2 : stx.configUpdated = mkCfg (pre ++ (sn, cur.set j E) :: post) := by
            rw [hset, hcfg, setMethodEntry_mkCfg]
          have hfa2 : MethodsRel (cur.set j E) ms :=
            forall2_set _ cur ms hfa j E m hmj hpe
          have hlen2 : (cur.set j E).length = ms.length := by
            rw [List.length_set]
            exact hlen
          split at h
          · cases h
            exact ⟨cur.set j E, hset2, hlen2, hfa2⟩
          · exact ih (j + 1) (cur.set j E) stx hsuf2 hlen2 hfa2 hset2 h

theorem runStep_norm {Img : Type} (env : Env Img) (sn : String)
    (ms : List Yaml) (reg : String → Bool)
    (hreg : env.registry sn = some reg)
    (hnorm : ∀ m ∈ ms, NormMethod reg m)
    (pre post : List (String × List Yaml))
    (st st1 : PassState Img) (brk : Bool)
    (hcfg : st.configUpdated = mkCfg (pre ++ (sn, ms) :: post))
    (h : runStep env pre.length (mkStep sn ms) st = .ok (st1, brk)) :
    ∃ cur2, st1.configUpdated = mkCfg (pre ++ (sn, cur2) :: post) ∧
      cur2.length = ms.length ∧ MethodsRel cur2 ms := by
  unfold runStep mkStep at h
  dsimp only [] at h
  split at h
  case _ hnull =>
    exfalso
    cases ms <;> simp [Yaml.ofL] at hnull
  case _ =>
    split at h
    · cases h
    case _ st3 hvis =>
      obtain ⟨-, -, -, hcv, -⟩ := visAutoselect_shape env sn _ _ st3 hvis
      obtain ⟨-, -, -, hch, -⟩ :=
        stepHeader_shape env.execute sn
          { st with flattened := alSet sn [] st.flattened }
      split at h
      · cases h
      case _ items hitems =>
        rw [pyIter_ofL, Except.ok.injEq] at hitems
        subst hitems
        refine runMethods_norm env reg sn ms hnorm hreg pre post ms 0 ms st3 st1
          brk rfl rfl ?_ ?_ h
        · exact List.forall₂_same.mpr (fun m hm => NormMethod_pyEq_self reg m (hnorm m hm))
        · rw [hcv, hch]
          exact hcfg

theorem runSteps_norm {Img : Type} (env : Env Img)
    (todo : List (String × List Yaml)) :
    ∀ (done : List (String × List Yaml)) (st st1 : PassState Img) (brk : Bool),
    (∀ sp ∈ todo, ∃ reg, env.registry sp.1 = some reg ∧
      ∀ m ∈ sp.2, NormMethod reg m) →
    st.configUpdated = mkCfg (done ++ todo) →
    runSteps env done.length (mkSteps todo) st = .ok (st1, brk) →
    ∃ todo2, st1.configUpdated = mkCfg (done ++ todo2) ∧
      List.Forall₂ StepRel todo2 todo := by
  induction todo with
  | nil =>
      intro done st st1 brk hnorm hcfg h
      unfold mkSteps at h
      rw [List.map_nil] at h
      unfold runSteps at h
      cases h
      exact ⟨[], hcfg, List.Forall₂.nil⟩
  | cons sp rest ih =>
      intro done st st1 brk hnorm hcfg h
      obtain ⟨snp, msp⟩ := sp
      unfold mkSteps at h
      rw [List.map_cons] at h
      unfold runSteps at h
      split at h
      · cases h
      case _ stx brk2 hstep =>
        obtain ⟨reg, hreg, hnm⟩ := hnorm (snp, msp) (List.mem_cons_self _ _)
        obtain ⟨cur2, hcfg2, hlen2, hfa2⟩ :=
          runStep_norm env snp msp reg hreg hnm done rest st stx brk2 hcfg hstep
        have hnorm2 : ∀ sp2 ∈ rest, ∃ reg2, env.registry sp2.1 = some reg2 ∧
            ∀ m ∈ sp2.2, NormMethod reg2 m :=
          fun sp2 hsp2 => hnorm sp2 (List.mem_cons_of_mem _ hsp2)
        have hrefl : List.Forall₂ StepRel rest rest := by
          refine List.forall₂_same.mpr (fun sp2 hsp2 => ?_)
          obtain ⟨reg2, -, hnm2⟩ := hnorm2 sp2 hsp2
          exact ⟨rfl, List.forall₂_same.mpr
            (fun m hm => NormMethod_pyEq_self reg2 m (hnm2 m hm))⟩
        split at h
        case _ hbrk2 =>
          cases h
          exact ⟨(snp, cur2) :: rest, hcfg2, List.Forall₂.cons ⟨rfl, hfa2⟩ hrefl⟩
        case _ hbrk2 =>
          have hcfg3 : stx.configUpdated = mkCfg ((done ++ [(snp, cur2)]) ++ rest) := by
            rw [hcfg2, List.append_assoc]
            rfl
          have h3 : runSteps env (done ++ [(snp, cur2)]).length (mkSteps rest) stx
              = .ok (st1, brk) := by
            rw [show (done ++ [(snp, cur2)]).length = done.length + 1 by simp]
            exact h
          obtain ⟨todo2, hcfg4, hfa4⟩ :=
            ih (done ++ [(snp, cur2)]) stx st1 brk hnorm2 hcfg3 h3
          refine ⟨(snp, cur2) :: todo2, ?_, List.Forall₂.cons ⟨rfl, hfa2⟩ hfa4⟩
          rw [hcfg4, List.append_assoc]
          rfl

/-- C2 (amended): after a pass that did not end on the restart signal, the
updated document is persisted if and only if it differs from the input under
Python `==` — CPython `dict` equality, which ignores mapping key order, not
structural order-sensitive equality.  And a pass over a normalized document
(every name a registry hit, every annotation-control block explicit with
`type`, `id` and `edit`) produces an updated document Python-equal to the
input, so no rewrite is persisted. -/
theorem claim_C2 :
    (∀ (Img : Type) (env : Env Img) (cfg : Yaml) (c0 : Container Img)
       (log0 : List PyExc) (r0 : Bool) (res : IterResult Img),
       iterate env cfg c0 log0 r0 = .ok res → res.earlyRestart = false →
       (res.persisted = true ↔ Yaml.pyEq res.state.configUpdated cfg = false)) ∧
    (∀ (Img : Type) (env : Env Img) (SS : List (String × List Yaml))
       (c0 : Container Img) (log0 : List PyExc) (r0 : Bool)
       (res : IterResult Img), NormCfg env SS →
       iterate env (mkCfg SS) c0 log0 r0 = .ok res →
       Yaml.pyEq res.state.configUpdated (mkCfg SS) = true ∧
       res.persisted = false) := by
  constructor
  · intro Img env cfg c0 log0 r0 res h hearly
    unfold iterate iterateFrom at h
    split at h
    · cases h
    · split at h
      · cases h
      case _ steps hsteps =>
        dsimp only [] at h
        split at h
        · cases h
        case _ stx brk2 hrun =>
          split at h
          case _ hbrk2 =>
            cases h
            cases hearly
          case _ hbrk2 =>
            by_cases hch : Yaml.pyEq stx.configUpdated cfg = true
            · rw [hch] at h
              simp only [Bool.not_true, Bool.false_eq_true, if_false] at h
              cases h
              simp [hch]
            · have hch2 : Yaml.pyEq stx.configUpdated cfg = false := by
                revert hch
                cases Yaml.pyEq stx.configUpdated cfg <;> simp
              rw [hch2] at h
              simp only [Bool.not_false, if_true] at h
              cases h
              simp [hch2]
  · intro Img env SS c0 log0 r0 res hN h
    unfold iterate iterateFrom at h
    rw [show (mkCfg SS).mlookup "processing_steps" = some (Yaml.ofL (mkSteps SS))
      from by simp [mkCfg, Yaml.mlookup]] at h
    dsimp only [] at h
    rw [pyIter_ofL] at h
    dsimp only [] at h
    split at h
    · cases h
    case _ stx brk2 hrun =>
      obtain ⟨todo2, hcfg2, hfa⟩ := runSteps_norm env SS [] _ stx brk2 hN rfl hrun
      have hpe : Yaml.pyEq stx.configUpdated (mkCfg SS) = true := by
        rw [hcfg2]
        exact pyEq_mkCfg todo2 SS hfa
      split at h
      · cases h
        exact ⟨hpe, rfl⟩
      · rw [hpe] at h
        simp only [Bool.not_true, Bool.false_eq_true, if_false] at h
        cases h
        exact ⟨hpe, rfl⟩

/-- C2 counterexample: a normalized document whose explicit ANNOTATION block
is not the first key of the method's argument mapping.  The pass moves the
block to the front of the written-back entry, so the updated document is
structurally (order-sensitively) different from the input — yet it is *not*
persisted, because the comparison of main.py:1427 is Python `==`, which
ignores mapping key order. -/
theorem claim_C2_counterexample :
    ∃ res, iterate demoEnv cfgAnnotTrailing (Container.init ()) [] false = .ok res ∧
      res.earlyRestart = false ∧
      res.state.configUpdated ≠ cfgAnnotTrailing ∧
      Yaml.pyEq res.state.configUpdated cfgAnnotTrailing = true ∧
      res.persisted = false := by
  refine ⟨_, rfl, ?_, ?_, ?_, ?_⟩ <;> decide

end Phenopype
